import Mathlib

set_option linter.unreachableTactic false

set_option linter.unusedTactic false

set_option linter.unnecessarySeqFocus false

/-!
Verification of the TS-Airtable request/caching core against its design
specification.

The development shallowly embeds the relevant source modules:

* the stable JSON serializer (`stableStringify` and its helpers) used to
  build cache keys;
* the cache-key builders (`tablePrefixKey`, `recordPrefixKey`, `listKey`,
  `recordKey`);
* the retry loop of `AirtableCoreClient.requestJson`
  (`shouldRetry`, `handleResponse`);
* the reference in-process LRU+TTL store (`InMemoryCacheStore`);
* the cached read-through and invalidation layer of
  `AirtableRecordsClient` (`listRecords`, `getRecord`, `updateRecord`,
  `createRecords`, `updateRecords`, `deleteRecords` and the internal
  cache helpers).

JavaScript values passed to the serializer are modelled by the inductive
type `JValue`.  Objects and arrays carry an identity tag (a `Nat`) that
stands for JavaScript object identity: the `WeakSet` used by the source
for circular-structure detection is keyed by object identity, so the
model must distinguish two structurally equal objects.  Trees of
`JValue` represent exactly the acyclic JavaScript values (sharing is
represented by repeating a tag; genuinely cyclic heaps have no
counterpart, so theorems below speak about acyclic inputs only).
-/

/-- JavaScript value as seen by the stable serializer.  `jundef`, `jfun`
and `jsym` are the three unsupported scalar kinds (`undefined`, function
references, symbols); `jother` is a non-plain object (a `Date`, class
instance, `Map`, ...) whose `JSON.stringify` rendering is the given
string (`none` when `JSON.stringify` would return `undefined` for it,
e.g. an object whose `toJSON` yields `undefined`).  Numbers are modelled
as integers; the claims under study never depend on float formatting. -/
inductive JValue where
  | jnull
  | jbool (b : Bool)
  | jnum (n : Int)
  | jstr (s : String)
  | jundef
  | jfun
  | jsym
  | jarr (tag : Nat) (elems : List JValue)
  | jobj (tag : Nat) (fields : List (String × JValue))
  | jother (render : Option String)

/-- Normalized value produced by the internal `normalize` closure of
`stableStringify`: identity tags are gone, object keys are sorted and
unsupported property values are dropped.  `nundef` only appears at the
top level (a top-level `undefined` / function / symbol is returned
unchanged by `normalize` and makes `JSON.stringify` return
`undefined`). -/
inductive NValue where
  | nnull
  | nbool (b : Bool)
  | nnum (n : Int)
  | nstr (s : String)
  | nundef
  | narr (elems : List NValue)
  | nobj (fields : List (String × NValue))
  | nother (render : Option String)

/-- Whether a value is one of the unsupported scalar kinds that
`JSON.stringify` (and hence `stableStringify`) drops from objects and
turns into `null` inside arrays: `item === undefined`,
`typeof item === "function"` or `typeof item === "symbol"`. -/
def isUnsupported : JValue → Bool
  | .jundef => true
  | .jfun => true
  | .jsym => true
  | _ => false

/-- Stable insertion of a field into a key-sorted field list.  Mirrors
the effect of the JavaScript `Object.keys(val).sort()` traversal: the
source sorts the key array with the default (code-unit lexicographic)
comparator and then reads the values back; since JavaScript objects
cannot contain duplicate keys, sorting the (key, value) pairs by key is
the same operation. -/
def insertField (p : String × JValue) : List (String × JValue) → List (String × JValue)
  | [] => [p]
  | q :: qs => if p.1 ≤ q.1 then p :: q :: qs else q :: insertField p qs

/-- Key-sort a field list (insertion sort, stable). -/
def sortFields (fs : List (String × JValue)) : List (String × JValue) :=
  fs.foldr insertField []

mutual

/-- Weight of a value, used as the termination measure of the traversal
(the list weights are padded by one so that every list is strictly
heavier than each of its members). -/
def wV : JValue → Nat
  | .jarr _ es => 1 + wL es
  | .jobj _ fs => 1 + wF fs
  | _ => 1

/-- Weight of an array element list. -/
def wL : List JValue → Nat
  | [] => 1
  | v :: vs => wV v + wL vs

/-- Weight of a field list. -/
def wF : List (String × JValue) → Nat
  | [] => 1
  | p :: fs => wV p.2 + wF fs

end

theorem wV_pos (v : JValue) : 0 < wV v := by
  cases v <;> simp [wV]

theorem wL_pos (vs : List JValue) : 0 < wL vs := by
  cases vs with
  | nil => simp [wL]
  | cons v vs => have := wV_pos v; simp [wL]; omega

theorem wF_pos (fs : List (String × JValue)) : 0 < wF fs := by
  cases fs with
  | nil => simp [wF]
  | cons p fs => have := wV_pos p.2; simp [wF]; omega

theorem wF_insertField (p : String × JValue) (fs : List (String × JValue)) :
    wF (insertField p fs) = wV p.2 + wF fs := by
  induction fs with
  | nil => simp [insertField, wF]
  | cons q qs ih =>
    by_cases h : p.1 ≤ q.1
    · simp [insertField, h, wF]
    · simp [insertField, h, wF, ih]; omega

theorem wF_sortFields (fs : List (String × JValue)) :
    wF (sortFields fs) = wF fs := by
  induction fs with
  | nil => simp [sortFields, wF]
  | cons p ps ih =>
    simp only [sortFields, List.foldr] at *
    rw [wF_insertField, ih, wF]

/-- Error message thrown by the source on circular-structure detection. -/
def circularMsg : String :=
  "Converting circular structure to JSON in stableStringify"

mutual

/-- Embedding of the `normalize` closure of `stableStringify`.  The
`seen` list plays the role of the per-call `WeakSet` of object
identities; the source adds every plain object / array to the set before
recursing and never removes it, so the set only grows and is threaded
through the traversal in evaluation order.  Object fields are visited in
sorted key order, exactly as the source iterates `Object.keys(val).sort()`. -/
def normV (seen : List Nat) (v : JValue) : Except String (NValue × List Nat) :=
  match v with
  | .jnull => .ok (.nnull, seen)
  | .jbool b => .ok (.nbool b, seen)
  | .jnum n => .ok (.nnum n, seen)
  | .jstr s => .ok (.nstr s, seen)
  | .jundef => .ok (.nundef, seen)
  | .jfun => .ok (.nundef, seen)
  | .jsym => .ok (.nundef, seen)
  | .jother r => .ok (.nother r, seen)
  | .jarr t es =>
      if t ∈ seen then .error circularMsg
      else
        match normArr (seen ++ [t]) es with
        | .error e => .error e
        | .ok (ns, seen₁) => .ok (.narr ns, seen₁)
  | .jobj t fs =>
      if t ∈ seen then .error circularMsg
      else
        match normFields (seen ++ [t]) (sortFields fs) with
        | .error e => .error e
        | .ok (ns, seen₁) => .ok (.nobj ns, seen₁)
termination_by wV v
decreasing_by
  all_goals simp [wV, wF_sortFields] <;> omega

/-- Embedding of the array branch of `normalize` (`val.map(...)`),
threading the visited set left to right; unsupported elements become
`null` without being traversed. -/
def normArr (seen : List Nat) (vs : List JValue) : Except String (List NValue × List Nat) :=
  match vs with
  | [] => .ok ([], seen)
  | v :: vs =>
      if isUnsupported v then
        match normArr seen vs with
        | .error e => .error e
        | .ok (ns, seen₁) => .ok (.nnull :: ns, seen₁)
      else
        match normV seen v with
        | .error e => .error e
        | .ok (n, seen₁) =>
            match normArr seen₁ vs with
            | .error e => .error e
            | .ok (ns, seen₂) => .ok (n :: ns, seen₂)
termination_by wL vs
decreasing_by
  all_goals have h1 := wV_pos v; have h2 := wL_pos vs; simp [wL] <;> omega

/-- Embedding of the plain-object branch of `normalize`: iterate the
sorted fields, dropping unsupported values, recursing on the rest. -/
def normFields (seen : List Nat) (fs : List (String × JValue)) :
    Except String (List (String × NValue) × List Nat) :=
  match fs with
  | [] => .ok ([], seen)
  | (k, v) :: fs =>
      if isUnsupported v then normFields seen fs
      else
        match normV seen v with
        | .error e => .error e
        | .ok (n, seen₁) =>
            match normFields seen₁ fs with
            | .error e => .error e
            | .ok (ns, seen₂) => .ok ((k, n) :: ns, seen₂)
termination_by wF fs
decreasing_by
  all_goals have h1 := wV_pos v; have h2 := wF_pos fs; simp [wF] <;> omega

end

/-- Hexadecimal digit (lowercase), for control-character escapes. -/
def hexDigit (n : Nat) : Char :=
  if n < 10 then Char.ofNat (48 + n) else Char.ofNat (87 + n)

/-- JSON escaping of one character, as performed by `JSON.stringify` on
string contents. -/
def escapeChar (c : Char) : String :=
  if c = Char.ofNat 34 then "\\\""
  else if c = Char.ofNat 92 then "\\\\"
  else if c = Char.ofNat 8 then "\\b"
  else if c = Char.ofNat 9 then "\\t"
  else if c = Char.ofNat 10 then "\\n"
  else if c = Char.ofNat 12 then "\\f"
  else if c = Char.ofNat 13 then "\\r"
  else if c.toNat < 32 then
    String.mk [Char.ofNat 92, Char.ofNat 117, Char.ofNat 48, Char.ofNat 48,
      hexDigit (c.toNat / 16), hexDigit (c.toNat % 16)]
  else String.singleton c

/-- JSON string literal for `s` (quote and escape). -/
def jsonQuote (s : String) : String :=
  "\"" ++ String.join (s.data.map escapeChar) ++ "\""

/-- Comma-join a list of already rendered pieces. -/
def joinComma : List String → String
  | [] => ""
  | [s] => s
  | s :: rest => s ++ "," ++ joinComma rest

mutual

/-- Embedding of the final `JSON.stringify(normalized)` call: standard
JSON rendering of the normalized value.  Returns `none` exactly when
`JSON.stringify` returns `undefined` (top-level unsupported scalar, or a
non-plain object that stringifies to `undefined`); values rendering to
`undefined` are dropped inside objects and rendered `null` inside
arrays, matching `JSON.stringify`. -/
def renderJson : NValue → Option String
  | .nnull => some "null"
  | .nbool b => some (if b then "true" else "false")
  | .nnum n => some (toString n)
  | .nstr s => some (jsonQuote s)
  | .nundef => none
  | .nother r => r
  | .narr es => some ("[" ++ joinComma (renderArr es) ++ "]")
  | .nobj fs => some ("\x7b" ++ joinComma (renderFields fs) ++ "\x7d")

/-- Rendering of array elements (undefined-rendering elements become
the string null, as in `JSON.stringify`). -/
def renderArr : List NValue → List String
  | [] => []
  | e :: es => ((renderJson e).getD "null") :: renderArr es

/-- Rendering of object fields (undefined-rendering values dropped). -/
def renderFields : List (String × NValue) → List String
  | [] => []
  | (k, v) :: fs =>
      match renderJson v with
      | none => renderFields fs
      | some rv => (jsonQuote k ++ ":" ++ rv) :: renderFields fs

end

/-- Embedding of `stableStringify`: normalize with a fresh visited set,
then render; `json ?? ""` is modelled by `Option.getD`.  The `TypeError`
thrown on a revisited object is the `Except.error` case carrying the
thrown message. -/
def stableStringify (v : JValue) : Except String String :=
  match normV [] v with
  | .error e => .error e
  | .ok (n, _) => .ok ((renderJson n).getD "")

example : stableStringify (.jobj 0 [("b", .jnum 1), ("a", .jnum 2)]) =
    .ok "\x7b\"a\":2,\"b\":1\x7d" := by
  simp +decide [stableStringify, normV, normFields, sortFields, insertField,
    isUnsupported, renderJson, renderFields, joinComma, jsonQuote, escapeChar,
    String.singleton]

mutual

/-- Identity tags of the plain objects and arrays met by the traversal,
in traversal order (object fields in sorted key order, unsupported
values skipped).  These are exactly the identities the visited set
accumulates. -/
def tagsV (v : JValue) : List Nat :=
  match v with
  | .jarr t es => t :: tagsArr es
  | .jobj t fs => t :: tagsFields (sortFields fs)
  | _ => []
termination_by wV v
decreasing_by
  all_goals simp [wV, wF_sortFields] <;> omega

/-- Tags met while traversing array elements. -/
def tagsArr (vs : List JValue) : List Nat :=
  match vs with
  | [] => []
  | v :: vs => (if isUnsupported v then [] else tagsV v) ++ tagsArr vs
termination_by wL vs
decreasing_by
  all_goals have h1 := wV_pos v; have h2 := wL_pos vs; simp [wL] <;> omega

/-- Tags met while traversing (already sorted) object fields. -/
def tagsFields (fs : List (String × JValue)) : List Nat :=
  match fs with
  | [] => []
  | (_, v) :: fs => (if isUnsupported v then [] else tagsV v) ++ tagsFields fs
termination_by wF fs
decreasing_by
  all_goals have h1 := wV_pos v; have h2 := wF_pos fs; simp [wF] <;> omega

end

mutual

/-- Pure (tag-free) normalization: what `normalize` computes when no
object is ever revisited. -/
def pnormV (v : JValue) : NValue :=
  match v with
  | .jnull => .nnull
  | .jbool b => .nbool b
  | .jnum n => .nnum n
  | .jstr s => .nstr s
  | .jundef => .nundef
  | .jfun => .nundef
  | .jsym => .nundef
  | .jother r => .nother r
  | .jarr _ es => .narr (pnormArr es)
  | .jobj _ fs => .nobj (pnormFields (sortFields fs))
termination_by wV v
decreasing_by
  all_goals simp [wV, wF_sortFields] <;> omega

/-- Pure normalization of array elements. -/
def pnormArr (vs : List JValue) : List NValue :=
  match vs with
  | [] => []
  | v :: vs => (if isUnsupported v then .nnull else pnormV v) :: pnormArr vs
termination_by wL vs
decreasing_by
  all_goals have h1 := wV_pos v; have h2 := wL_pos vs; simp [wL] <;> omega

/-- Pure normalization of (already sorted) object fields. -/
def pnormFields (fs : List (String × JValue)) : List (String × NValue) :=
  match fs with
  | [] => []
  | (k, v) :: fs =>
      if isUnsupported v then pnormFields fs
      else (k, pnormV v) :: pnormFields fs
termination_by wF fs
decreasing_by
  all_goals have h1 := wV_pos v; have h2 := wF_pos fs; simp [wF] <;> omega

end

/-- Freshness of a tag sequence with respect to an already visited set:
the sequence repeats nothing and avoids the visited set.  The traversal
succeeds exactly when the tags it is about to meet are fresh. -/
def FreshTags (seen ts : List Nat) : Prop :=
  ts.Nodup ∧ ∀ t ∈ ts, t ∉ seen

instance (seen ts : List Nat) : Decidable (FreshTags seen ts) := by
  unfold FreshTags; infer_instance

theorem freshTags_nil (seen : List Nat) : FreshTags seen [] := by
  simp [FreshTags]

theorem freshTags_cons (seen : List Nat) (t : Nat) (ts : List Nat) :
    FreshTags seen (t :: ts) ↔ t ∉ seen ∧ FreshTags (seen ++ [t]) ts := by
  simp only [FreshTags, List.nodup_cons, List.mem_cons, List.mem_append,
    List.mem_singleton, List.not_mem_nil, or_false, not_or]
  constructor
  · rintro ⟨⟨hts, hnd⟩, hmem⟩
    refine ⟨(hmem t (Or.inl rfl)), hnd, fun x hx => ⟨(hmem x (Or.inr hx)), fun he => hts ?_⟩⟩
    rw [he] at hx
    exact hx
  · rintro ⟨htseen, hnd, hmem⟩
    refine ⟨⟨fun hts => (hmem t hts).2 rfl, hnd⟩, ?_⟩
    rintro x (rfl | hx)
    · exact htseen
    · exact (hmem x hx).1

theorem freshTags_append (seen ts₁ ts₂ : List Nat) :
    FreshTags seen (ts₁ ++ ts₂) ↔ FreshTags seen ts₁ ∧ FreshTags (seen ++ ts₁) ts₂ := by
  simp only [FreshTags, List.nodup_append, List.mem_append, not_or]
  constructor
  · rintro ⟨⟨h1, h2, hdisj⟩, hmem⟩
    refine ⟨⟨h1, fun x hx => (hmem x (Or.inl hx))⟩,
      ⟨h2, fun x hx => ⟨(hmem x (Or.inr hx)), fun hx1 => hdisj hx1 hx⟩⟩⟩
  · rintro ⟨⟨h1, hm1⟩, ⟨h2, hm2⟩⟩
    refine ⟨⟨h1, h2, fun x hx1 hx2 => (hm2 x hx2).2 hx1⟩, ?_⟩
    rintro x (hx | hx)
    · exact hm1 x hx
    · exact (hm2 x hx).1

theorem wL_lt_wV_arr (t : Nat) (es : List JValue) : wL es < wV (.jarr t es) := by
  simp [wV]

theorem wF_sort_lt_wV_obj (t : Nat) (fs : List (String × JValue)) :
    wF (sortFields fs) < wV (.jobj t fs) := by
  simp [wV, wF_sortFields]

theorem wV_lt_wL_cons (v : JValue) (vs : List JValue) : wV v < wL (v :: vs) := by
  have := wL_pos vs; simp [wL]; omega

theorem wL_lt_wL_cons (v : JValue) (vs : List JValue) : wL vs < wL (v :: vs) := by
  have := wV_pos v; simp [wL]; omega

theorem wV_lt_wF_cons (k : String) (v : JValue) (fs : List (String × JValue)) :
    wV v < wF ((k, v) :: fs) := by
  have := wF_pos fs; simp [wF]; omega

theorem wF_lt_wF_cons (k : String) (v : JValue) (fs : List (String × JValue)) :
    wF fs < wF ((k, v) :: fs) := by
  have := wV_pos v; simp [wF]; omega

mutual

/-- Characterization of the traversal: `normalize` succeeds exactly
when the tags it is about to visit are fresh, in which case it produces
the pure normalization and appends the visited tags in traversal order;
otherwise it throws the circular-structure `TypeError`. -/
theorem normV_char (seen : List Nat) (v : JValue) :
    normV seen v =
      if FreshTags seen (tagsV v) then .ok (pnormV v, seen ++ tagsV v)
      else .error circularMsg := by
  cases v with
  | jnull => simp [normV, tagsV, pnormV, FreshTags]
  | jbool b => simp [normV, tagsV, pnormV, FreshTags]
  | jnum n => simp [normV, tagsV, pnormV, FreshTags]
  | jstr s => simp [normV, tagsV, pnormV, FreshTags]
  | jundef => simp [normV, tagsV, pnormV, FreshTags]
  | jfun => simp [normV, tagsV, pnormV, FreshTags]
  | jsym => simp [normV, tagsV, pnormV, FreshTags]
  | jother r => simp [normV, tagsV, pnormV, FreshTags]
  | jarr t es =>
    rw [show normV seen (.jarr t es) =
      (if t ∈ seen then .error circularMsg
      else
        match normArr (seen ++ [t]) es with
        | .error e => .error e
        | .ok (ns, seen₁) => .ok (.narr ns, seen₁)) from by rw [normV]]
    rw [normArr_char (seen ++ [t]) es]
    simp only [tagsV, pnormV, freshTags_cons]
    by_cases hmem : t ∈ seen
    · simp [hmem]
    · by_cases hf : FreshTags (seen ++ [t]) (tagsArr es)
      · simp [hmem, hf]
      · simp [hmem, hf]
  | jobj t fs =>
    rw [show normV seen (.jobj t fs) =
      (if t ∈ seen then .error circularMsg
      else
        match normFields (seen ++ [t]) (sortFields fs) with
        | .error e => .error e
        | .ok (ns, seen₁) => .ok (.nobj ns, seen₁)) from by rw [normV]]
    rw [normFields_char (seen ++ [t]) (sortFields fs)]
    simp only [tagsV, pnormV, freshTags_cons]
    by_cases hmem : t ∈ seen
    · simp [hmem]
    · by_cases hf : FreshTags (seen ++ [t]) (tagsFields (sortFields fs))
      · simp [hmem, hf]
      · simp [hmem, hf]
termination_by wV v
decreasing_by
  all_goals first
    | exact wL_lt_wV_arr _ _
    | exact wF_sort_lt_wV_obj _ _
    | exact wV_lt_wL_cons _ _
    | exact wL_lt_wL_cons _ _
    | exact wV_lt_wF_cons _ _ _
    | exact wF_lt_wF_cons _ _ _

/-- Characterization of the traversal over array elements. -/
theorem normArr_char (seen : List Nat) (vs : List JValue) :
    normArr seen vs =
      if FreshTags seen (tagsArr vs) then .ok (pnormArr vs, seen ++ tagsArr vs)
      else .error circularMsg := by
  cases vs with
  | nil => simp [normArr, tagsArr, pnormArr, FreshTags]
  | cons v vs =>
    by_cases hu : isUnsupported v
    · rw [show normArr seen (v :: vs) =
        (match normArr seen vs with
        | .error e => .error e
        | .ok (ns, seen₁) => .ok (.nnull :: ns, seen₁)) from by rw [normArr]; simp [hu]]
      rw [normArr_char seen vs]
      simp only [tagsArr, pnormArr, hu, if_true, List.nil_append]
      by_cases hf : FreshTags seen (tagsArr vs)
      · simp [hf]
      · simp [hf]
    · rw [show normArr seen (v :: vs) =
        (match normV seen v with
        | .error e => .error e
        | .ok (n, seen₁) =>
            match normArr seen₁ vs with
            | .error e => .error e
            | .ok (ns, seen₂) => .ok (n :: ns, seen₂)) from by rw [normArr]; simp [hu]]
      rw [normV_char seen v]
      by_cases hf1 : FreshTags seen (tagsV v)
      · by_cases hf2 : FreshTags (seen ++ tagsV v) (tagsArr vs)
        · simp [tagsArr, pnormArr, hu, freshTags_append, hf1, hf2,
            normArr_char (seen ++ tagsV v) vs, List.append_assoc]
        · simp [tagsArr, pnormArr, hu, freshTags_append, hf1, hf2,
            normArr_char (seen ++ tagsV v) vs]
      · simp [tagsArr, pnormArr, hu, freshTags_append, hf1]
termination_by wL vs
decreasing_by
  all_goals first
    | exact wL_lt_wV_arr _ _
    | exact wF_sort_lt_wV_obj _ _
    | exact wV_lt_wL_cons _ _
    | exact wL_lt_wL_cons _ _
    | exact wV_lt_wF_cons _ _ _
    | exact wF_lt_wF_cons _ _ _

/-- Characterization of the traversal over (already sorted) object
fields. -/
theorem normFields_char (seen : List Nat) (fs : List (String × JValue)) :
    normFields seen fs =
      if FreshTags seen (tagsFields fs) then .ok (pnormFields fs, seen ++ tagsFields fs)
      else .error circularMsg := by
  cases fs with
  | nil => simp [normFields, tagsFields, pnormFields, FreshTags]
  | cons p fs =>
    obtain ⟨k, v⟩ := p
    by_cases hu : isUnsupported v
    · rw [show normFields seen ((k, v) :: fs) = normFields seen fs from by
        rw [normFields]; simp [hu]]
      rw [normFields_char seen fs]
      simp only [tagsFields, pnormFields, hu, if_true, List.nil_append]
    · rw [show normFields seen ((k, v) :: fs) =
        (match normV seen v with
        | .error e => .error e
        | .ok (n, seen₁) =>
            match normFields seen₁ fs with
            | .error e => .error e
            | .ok (ns, seen₂) => .ok ((k, n) :: ns, seen₂)) from by
          rw [normFields]; simp [hu]]
      rw [normV_char seen v]
      by_cases hf1 : FreshTags seen (tagsV v)
      · by_cases hf2 : FreshTags (seen ++ tagsV v) (tagsFields fs)
        · simp [tagsFields, pnormFields, hu, freshTags_append, hf1, hf2,
            normFields_char (seen ++ tagsV v) fs, List.append_assoc]
        · simp [tagsFields, pnormFields, hu, freshTags_append, hf1, hf2,
            normFields_char (seen ++ tagsV v) fs]
      · simp [tagsFields, pnormFields, hu, freshTags_append, hf1]
termination_by wF fs
decreasing_by
  all_goals first
    | exact wL_lt_wV_arr _ _
    | exact wF_sort_lt_wV_obj _ _
    | exact wV_lt_wL_cons _ _
    | exact wL_lt_wL_cons _ _
    | exact wV_lt_wF_cons _ _ _
    | exact wF_lt_wF_cons _ _ _

end

/-- Top-level characterization of `stableStringify`: it returns the
rendering of the pure normalization when no object identity repeats in
the traversal, and throws the circular-structure `TypeError` otherwise. -/
theorem stableStringify_char (v : JValue) :
    stableStringify v =
      if (tagsV v).Nodup then .ok ((renderJson (pnormV v)).getD "")
      else .error circularMsg := by
  unfold stableStringify
  rw [normV_char [] v]
  have hiff : FreshTags [] (tagsV v) ↔ (tagsV v).Nodup := by simp [FreshTags]
  by_cases h : (tagsV v).Nodup
  · rw [if_pos (hiff.mpr h), if_pos h]
  · rw [if_neg (fun hf => h (hiff.mp hf)), if_neg h]

/-- Extraction of the first field with the given key, returning its
value and the remaining fields.  Used to express that one property list
is a permutation of another: repeatedly match off fields by key. -/
def extractKey (k : String) : List (String × JValue) → Option (JValue × List (String × JValue))
  | [] => none
  | (k1, v1) :: rest =>
      if k1 = k then some (v1, rest)
      else
        match extractKey k rest with
        | none => none
        | some (v, rest1) => some (v, (k1, v1) :: rest1)

mutual

/-- Decidable formalization of the relation "p and q denote the same
JavaScript value up to reordering of own properties at any nesting
level": scalars must be equal, arrays must agree pointwise in order, and
each object property list must be a permutation of the other with
related values.  Identity tags are ignored (reordering the properties of
an object literal changes the identities of nothing but the containing
literal). -/
def permEqV : JValue → JValue → Bool
  | .jnull, .jnull => true
  | .jbool b, .jbool b1 => b == b1
  | .jnum n, .jnum n1 => n == n1
  | .jstr s, .jstr s1 => s == s1
  | .jundef, .jundef => true
  | .jfun, .jfun => true
  | .jsym, .jsym => true
  | .jother r, .jother r1 => r == r1
  | .jarr _ es, .jarr _ es1 => permEqArr es es1
  | .jobj _ fs, .jobj _ fs1 => permEqFields fs fs1
  | _, _ => false

/-- Pointwise relation on array element lists (arrays keep their
order). -/
def permEqArr : List JValue → List JValue → Bool
  | [], [] => true
  | v :: vs, v1 :: vs1 => permEqV v v1 && permEqArr vs vs1
  | _, _ => false

/-- Permutation relation on field lists: match each field of the left
list against the first field with the same key on the right. -/
def permEqFields : List (String × JValue) → List (String × JValue) → Bool
  | [], fs1 => fs1.isEmpty
  | (k, v) :: rest, fs1 =>
      match extractKey k fs1 with
      | none => false
      | some (v1, rest1) => permEqV v v1 && permEqFields rest rest1

end

mutual

/-- Well-formedness of a modelled JavaScript value: every plain object
has pairwise distinct keys, recursively.  JavaScript objects cannot hold
two own properties with the same key, so every value a caller can pass
satisfies this. -/
def wfKeysV : JValue → Bool
  | .jarr _ es => wfKeysArr es
  | .jobj _ fs => decide ((fs.map Prod.fst).Nodup) && wfKeysFields fs
  | _ => true

/-- Well-formedness of all elements of an array. -/
def wfKeysArr : List JValue → Bool
  | [] => true
  | v :: vs => wfKeysV v && wfKeysArr vs

/-- Well-formedness of all values of a field list. -/
def wfKeysFields : List (String × JValue) → Bool
  | [] => true
  | (_, v) :: fs => wfKeysV v && wfKeysFields fs

end

/-- Field lists sorted by key (non-strictly). -/
def KeySorted (l : List (String × JValue)) : Prop :=
  l.Pairwise (fun a b => a.1 ≤ b.1)

theorem insertField_perm (p : String × JValue) (l : List (String × JValue)) :
    (insertField p l).Perm (p :: l) := by
  induction l with
  | nil => simp [insertField]
  | cons q qs ih =>
    by_cases h : p.1 ≤ q.1
    · simp [insertField, h]
    · simp only [insertField, h, if_false]
      exact (ih.cons q).trans (List.Perm.swap p q qs)

theorem sortFields_perm (fs : List (String × JValue)) : (sortFields fs).Perm fs := by
  induction fs with
  | nil => simp [sortFields]
  | cons p ps ih =>
    have : sortFields (p :: ps) = insertField p (sortFields ps) := rfl
    rw [this]
    exact (insertField_perm p (sortFields ps)).trans (ih.cons p)

theorem insertField_sorted (p : String × JValue) (l : List (String × JValue))
    (hs : KeySorted l) : KeySorted (insertField p l) := by
  induction l with
  | nil => simp [insertField, KeySorted]
  | cons q qs ih =>
    rw [KeySorted, List.pairwise_cons] at hs
    by_cases h : p.1 ≤ q.1
    · rw [KeySorted]
      simp only [insertField, h, if_true]
      rw [List.pairwise_cons]
      refine ⟨?_, ?_⟩
      · intro b hb
        rcases List.mem_cons.mp hb with heq | hb2
        · rw [heq]; exact h
        · exact le_trans h (hs.1 b hb2)
      · rw [List.pairwise_cons]
        exact hs
    · rw [KeySorted]
      simp only [insertField, h, if_false]
      rw [List.pairwise_cons]
      refine ⟨?_, ih hs.2⟩
      intro b hb
      rcases List.mem_cons.mp ((insertField_perm p qs).mem_iff.mp hb) with heq | hb2
      · rw [heq]; exact le_of_not_le h
      · exact hs.1 b hb2

theorem sortFields_sorted (fs : List (String × JValue)) : KeySorted (sortFields fs) := by
  induction fs with
  | nil => simp [sortFields, KeySorted]
  | cons p ps ih => exact insertField_sorted p (sortFields ps) ih

theorem keySorted_perm_eq (l : List (String × JValue)) :
    ∀ l', KeySorted l → KeySorted l' → (l.map Prod.fst).Nodup → l.Perm l' → l = l' := by
  induction l with
  | nil =>
    intro l' _ _ _ hp
    exact (hp.nil_eq).symm ▸ rfl
  | cons a as ih =>
    intro l' hs hs' hnd hp
    cases l' with
    | nil => exact absurd hp.symm (by simp)
    | cons b bs =>
      have hab : a = b := by
        by_contra hne
        have hamem : a ∈ b :: bs := hp.mem_iff.mp (by simp)
        have hbmem : b ∈ a :: as := hp.mem_iff.mpr (by simp)
        rcases List.mem_cons.mp hamem with rfl | hamem2
        · exact hne rfl
        rcases List.mem_cons.mp hbmem with rfl | hbmem2
        · exact hne rfl
        rw [KeySorted, List.pairwise_cons] at hs hs'
        have h1 : a.1 ≤ b.1 := hs.1 b hbmem2
        have h2 : b.1 ≤ a.1 := hs'.1 a hamem2
        have heq : a.1 = b.1 := le_antisymm h1 h2
        rw [List.map_cons, List.nodup_cons] at hnd
        exact hnd.1 (heq ▸ (List.mem_map_of_mem Prod.fst hbmem2))
      subst hab
      have htail : as.Perm bs := hp.cons_inv
      rw [KeySorted, List.pairwise_cons] at hs hs'
      rw [List.map_cons, List.nodup_cons] at hnd
      rw [ih bs hs.2 hs'.2 hnd.2 htail]

theorem extractKey_perm (k : String) (fs : List (String × JValue))
    (v : JValue) (rest : List (String × JValue))
    (h : extractKey k fs = some (v, rest)) : fs.Perm ((k, v) :: rest) := by
  induction fs generalizing v rest with
  | nil => simp [extractKey] at h
  | cons p fs0 ih =>
    obtain ⟨k1, v1⟩ := p
    by_cases he : k1 = k
    · subst he
      simp [extractKey] at h
      obtain ⟨rfl, rfl⟩ := h
      exact List.Perm.refl _
    · simp only [extractKey, he, if_false] at h
      cases hx : extractKey k fs0 with
      | none => rw [hx] at h; simp at h
      | some pr =>
        obtain ⟨v0, rest1⟩ := pr
        rw [hx] at h
        simp only [Option.some_inj, Prod.mk.injEq] at h
        obtain ⟨rfl, rfl⟩ := h
        have ihp := ih v0 rest1 hx
        exact (ihp.cons (k1, v1)).trans (List.Perm.swap (k, v0) (k1, v1) rest1)

theorem permEqFields_keys_perm (fs : List (String × JValue)) :
    ∀ fs', permEqFields fs fs' = true →
      (fs.map Prod.fst).Perm (fs'.map Prod.fst) := by
  induction fs with
  | nil =>
    intro fs' h
    simp only [permEqFields, List.isEmpty_iff] at h
    subst h
    exact List.Perm.refl _
  | cons p rest ih =>
    intro fs' h
    obtain ⟨k, v⟩ := p
    simp only [permEqFields] at h
    cases hx : extractKey k fs' with
    | none => rw [hx] at h; simp at h
    | some pr =>
      obtain ⟨v1, rest1⟩ := pr
      rw [hx] at h
      simp only [Bool.and_eq_true] at h
      have hkeys := (extractKey_perm k fs' v1 rest1 hx).map Prod.fst
      have ihk := ih rest1 h.2
      exact (ihk.cons k).trans hkeys.symm

theorem isUnsupported_congr (v v' : JValue) (h : permEqV v v' = true) :
    isUnsupported v = isUnsupported v' := by
  cases v <;> cases v' <;> simp_all [permEqV, isUnsupported]

/-- Pointwise relation between two field lists: same keys in the same
positions, values related by `permEqV`. -/
def FieldsRel (S S' : List (String × JValue)) : Prop :=
  List.Forall₂ (fun a b => a.1 = b.1 ∧ permEqV a.2 b.2 = true) S S'

theorem fieldsRel_insertField (k : String) (v v' : JValue) (h : permEqV v v' = true) :
    ∀ {S S'}, FieldsRel S S' → FieldsRel (insertField (k, v) S) (insertField (k, v') S') := by
  intro S S' hrel
  induction hrel with
  | nil => exact List.Forall₂.cons ⟨rfl, h⟩ List.Forall₂.nil
  | cons ha htail ih =>
    rename_i a b S0 S0'
    by_cases hle : k ≤ a.1
    · simp only [insertField, hle, if_true]
      have hle' : k ≤ b.1 := ha.1 ▸ hle
      simp only [insertField, hle', if_true]
      exact List.Forall₂.cons ⟨rfl, h⟩ (List.Forall₂.cons ha htail)
    · simp only [insertField, hle, if_false]
      have hle' : ¬ k ≤ b.1 := ha.1 ▸ hle
      simp only [insertField, hle', if_false]
      exact List.Forall₂.cons ha ih

theorem fieldsRel_sortFields (fs : List (String × JValue)) :
    ∀ fs', permEqFields fs fs' = true → (fs.map Prod.fst).Nodup →
      FieldsRel (sortFields fs) (sortFields fs') := by
  induction fs with
  | nil =>
    intro fs' h _
    simp only [permEqFields, List.isEmpty_iff] at h
    subst h
    exact List.Forall₂.nil
  | cons p rest ih =>
    intro fs' h hnd
    obtain ⟨k, v⟩ := p
    have hndfs' : (fs'.map Prod.fst).Nodup :=
      (permEqFields_keys_perm _ fs' h).nodup hnd
    simp only [permEqFields] at h
    cases hx : extractKey k fs' with
    | none => rw [hx] at h; simp at h
    | some pr =>
      obtain ⟨v1, rest1⟩ := pr
      rw [hx] at h
      simp only [Bool.and_eq_true] at h
      have hperm1 : fs'.Perm ((k, v1) :: rest1) := extractKey_perm k fs' v1 rest1 hx
      rw [List.map_cons, List.nodup_cons] at hnd
      have hnd1 : (rest1.map Prod.fst).Nodup := by
        have := hperm1.map Prod.fst
        have h2 := this.nodup hndfs'
        rw [List.map_cons, List.nodup_cons] at h2
        exact h2.2
      have ihr := ih rest1 h.2 hnd.2
      have hsfs' : sortFields fs' = insertField (k, v1) (sortFields rest1) := by
        apply keySorted_perm_eq
        · exact sortFields_sorted fs'
        · exact insertField_sorted _ _ (sortFields_sorted rest1)
        · exact ((sortFields_perm fs').map Prod.fst).symm.nodup hndfs'
        · exact ((sortFields_perm fs').trans hperm1).trans
            ((insertField_perm (k, v1) (sortFields rest1)).trans
              ((sortFields_perm rest1).cons (k, v1))).symm
      have hsfs : sortFields ((k, v) :: rest) = insertField (k, v) (sortFields rest) := rfl
      rw [hsfs, hsfs']
      exact fieldsRel_insertField k v v1 h.1 ihr

theorem wfKeysFields_mem (fs : List (String × JValue)) (h : wfKeysFields fs = true) :
    ∀ p ∈ fs, wfKeysV p.2 = true := by
  induction fs with
  | nil => intro p hp; simp at hp
  | cons q qs ih =>
    obtain ⟨k, v⟩ := q
    simp only [wfKeysFields, Bool.and_eq_true] at h
    intro p hp
    rcases List.mem_cons.mp hp with heq | hp2
    · rw [heq]; exact h.1
    · exact ih h.2 p hp2

mutual

/-- Pure normalization is invariant under reordering of object
properties (for values with duplicate-free keys at every level, which
JavaScript guarantees). -/
theorem pnormV_congr : ∀ (v v' : JValue), permEqV v v' = true →
    wfKeysV v = true → wfKeysV v' = true → pnormV v = pnormV v'
  | .jnull, v', h, _, _ => by cases v' <;> simp_all [permEqV, pnormV]
  | .jbool b, v', h, _, _ => by cases v' <;> simp_all [permEqV, pnormV]
  | .jnum n, v', h, _, _ => by cases v' <;> simp_all [permEqV, pnormV]
  | .jstr s, v', h, _, _ => by cases v' <;> simp_all [permEqV, pnormV]
  | .jundef, v', h, _, _ => by cases v' <;> simp_all [permEqV, pnormV]
  | .jfun, v', h, _, _ => by cases v' <;> simp_all [permEqV, pnormV]
  | .jsym, v', h, _, _ => by cases v' <;> simp_all [permEqV, pnormV]
  | .jother r, v', h, _, _ => by cases v' <;> simp_all [permEqV, pnormV]
  | .jarr t es, v', h, hw, hw' => by
      cases v' <;> simp [permEqV] at h
      rename_i t1 es1
      have hw1 : wfKeysArr es = true := by simpa [wfKeysV] using hw
      have hw2 : wfKeysArr es1 = true := by simpa [wfKeysV] using hw'
      simp only [pnormV]
      rw [pnormArr_congr es es1 h hw1 hw2]
  | .jobj t fs, v', h, hw, hw' => by
      cases v' <;> simp [permEqV] at h
      rename_i t1 fs1
      have hw1 := hw
      have hw2 := hw'
      simp only [wfKeysV, Bool.and_eq_true, decide_eq_true_eq] at hw1 hw2
      simp only [pnormV]
      have hrel := fieldsRel_sortFields fs fs1 h hw1.1
      rw [pnormFields_congr (sortFields fs) (sortFields fs1) hrel
        (fun p hp => wfKeysFields_mem fs hw1.2 p ((sortFields_perm fs).mem_iff.mp hp))
        (fun p hp => wfKeysFields_mem fs1 hw2.2 p ((sortFields_perm fs1).mem_iff.mp hp))]
termination_by v _ _ _ _ => wV v
decreasing_by
  all_goals first
    | exact wL_lt_wV_arr _ _
    | exact wF_sort_lt_wV_obj _ _

/-- Pure normalization of arrays is invariant pointwise. -/
theorem pnormArr_congr : ∀ (vs vs' : List JValue), permEqArr vs vs' = true →
    wfKeysArr vs = true → wfKeysArr vs' = true → pnormArr vs = pnormArr vs'
  | [], vs', h, _, _ => by cases vs' <;> simp_all [permEqArr, pnormArr]
  | v :: vs, vs', h, hw, hw' => by
      cases vs' with
      | nil => simp [permEqArr] at h
      | cons v1 vs1 =>
        simp only [permEqArr, Bool.and_eq_true] at h
        simp only [wfKeysArr, Bool.and_eq_true] at hw hw'
        have hu := isUnsupported_congr v v1 h.1
        simp only [pnormArr]
        rw [pnormArr_congr vs vs1 h.2 hw.2 hw'.2]
        by_cases hun : isUnsupported v
        · rw [if_pos hun, if_pos (by rw [← hu]; exact hun)]
        · rw [if_neg hun, if_neg (by rw [← hu]; exact hun),
            pnormV_congr v v1 h.1 hw.1 hw'.1]
termination_by vs _ _ _ _ => wL vs
decreasing_by
  all_goals first
    | exact wL_lt_wL_cons _ _
    | exact wV_lt_wL_cons _ _

/-- Pure normalization of pointwise-related sorted field lists. -/
theorem pnormFields_congr : ∀ (S S' : List (String × JValue)), FieldsRel S S' →
    (∀ p ∈ S, wfKeysV p.2 = true) → (∀ p ∈ S', wfKeysV p.2 = true) →
    pnormFields S = pnormFields S'
  | [], S', hrel, _, _ => by cases hrel; rfl
  | (ka, va) :: S, S', hrel, hS, hS' => by
      cases hrel with
      | cons hab htail =>
        rename_i b S1
        obtain ⟨kb, vb⟩ := b
        obtain ⟨hk, hv⟩ := hab
        simp only at hk
        subst hk
        have hu := isUnsupported_congr va vb hv
        have hS0 : ∀ p ∈ S, wfKeysV p.2 = true := fun p hp => hS p (List.mem_cons_of_mem _ hp)
        have hS1 : ∀ p ∈ S1, wfKeysV p.2 = true := fun p hp => hS' p (List.mem_cons_of_mem _ hp)
        simp only [pnormFields]
        rw [pnormFields_congr S S1 htail hS0 hS1]
        by_cases hun : isUnsupported va
        · rw [if_pos hun, if_pos (by rw [← hu]; exact hun)]
        · rw [if_neg hun, if_neg (by rw [← hu]; exact hun),
            pnormV_congr va vb hv (hS (ka, va) (List.mem_cons_self _ _))
              (hS' (ka, vb) (List.mem_cons_self _ _))]
termination_by S _ _ _ _ => wF S
decreasing_by
  all_goals first
    | exact wF_lt_wF_cons _ _ _
    | exact wV_lt_wF_cons _ _ _

end

/-- C1: for every plain-object parameter set and every permutation of
its own properties at any nesting level (`permEqV`), `stableStringify`
returns byte-identical strings, hence identical cache keys.  The
well-formedness hypotheses state what JavaScript guarantees for any
value a caller can build: objects never carry duplicate keys
(`wfKeysV`), and the two parameter trees are built from object literals
whose identities are pairwise distinct (`tagsV … |>.Nodup`), so the
serializer does not throw. -/
theorem c1_stableStringify_permutation_invariant (p p' : JValue)
    (hperm : permEqV p p' = true)
    (hkeys : wfKeysV p = true) (hkeys' : wfKeysV p' = true)
    (htags : (tagsV p).Nodup) (htags' : (tagsV p').Nodup) :
    stableStringify p = stableStringify p' := by
  rw [stableStringify_char, stableStringify_char, if_pos htags, if_pos htags',
    pnormV_congr p p' hperm hkeys hkeys']

/-- Witness for C1 at the spec example pair: permuting `b:1, a:2` into
`a:2, b:1` (fresh identity for the permuted literal) gives the same
serialized key. -/
theorem c1_witness :
    permEqV (.jobj 0 [("b", .jnum 1), ("a", .jnum 2)])
      (.jobj 1 [("a", .jnum 2), ("b", .jnum 1)]) = true ∧
    stableStringify (.jobj 0 [("b", .jnum 1), ("a", .jnum 2)]) =
      stableStringify (.jobj 1 [("a", .jnum 2), ("b", .jnum 1)]) :=
  ⟨by decide,
    c1_stableStringify_permutation_invariant _ _ (by decide) (by decide) (by decide)
      (by simp +decide [tagsV, tagsFields, sortFields, insertField, isUnsupported])
      (by simp +decide [tagsV, tagsFields, sortFields, insertField, isUnsupported])⟩

/-- C2 (amended): `stableStringify` raises the circular-structure
`TypeError` exactly when some object identity is met twice during the
traversal — the per-call visited set is never pruned on subtree exit,
so an acyclic value in which the same object is merely reachable twice
through sibling subtrees also throws; a string is returned exactly for
inputs whose traversed objects are pairwise distinct. -/
theorem c2_circular_error_iff_revisit (v : JValue) :
    (stableStringify v = .error circularMsg ↔ ¬ (tagsV v).Nodup) ∧
    ((tagsV v).Nodup ↔ ∃ s, stableStringify v = .ok s) := by
  rw [stableStringify_char]
  by_cases h : (tagsV v).Nodup
  · simp [h]
  · simp [h]

/-- Counterexample to C2 as stated: an acyclic object whose two sibling
properties reference the same already-exited empty object (identity
tag 1) is rejected with the circular-structure `TypeError`, although it
contains no active ancestor-descendant cycle. -/
theorem c2_counterexample :
    stableStringify (.jobj 0 [("a", .jobj 1 []), ("b", .jobj 1 [])]) =
      .error circularMsg := by
  have h : ¬ (tagsV (.jobj 0 [("a", .jobj 1 []), ("b", .jobj 1 [])])).Nodup := by
    simp +decide [tagsV, tagsFields, sortFields, insertField, isUnsupported]
  rw [stableStringify_char, if_neg h]

/-- Embedding of `String.prototype.includes`: whether `sub` occurs as a
contiguous substring, scanning positions left to right. -/
def listIncludes (sub : List Char) : List Char → Bool
  | [] => sub.isEmpty
  | c :: cs => sub.isPrefixOf (c :: cs) || listIncludes sub cs

/-- Substring test on strings (`contentType.includes(...)` in the
source). -/
def strIncludes (s sub : String) : Bool :=
  listIncludes sub.data s.data

/-- HTTP response as consumed by the retry loop: status code, the
`Content-Type` header, the body text and the `Retry-After` header.
Bodies are assumed well formed: `JSON.parse` is modelled as total (the
parsed value is represented by the raw text it was parsed from), and a
non-empty JSON body is assumed to parse to a truthy value. -/
structure HttpResponse where
  status : Nat
  contentType : String
  bodyText : String
  retryAfter : Option String
deriving DecidableEq, Repr

/-- Typed API error raised by `handleResponse` on terminal non-2xx
outcomes (`AirtableError(status, payload)`); the payload is the raw JSON
error body when one was present. -/
structure AirtableError where
  status : Nat
  payload : Option String
deriving DecidableEq, Repr

/-- Resolution value of `requestJson`: no content (status 204), a parsed
JSON body, or the raw text body. -/
inductive RespData where
  | noContent
  | json (text : String)
  | text (s : String)
deriving DecidableEq, Repr

/-- Embedding of `Response.ok`: status in the 2xx range. -/
def respOk (status : Nat) : Bool :=
  decide (200 ≤ status) && decide (status < 300)

/-- Embedding of `AirtableCoreClient.handleResponse`: 204 resolves with
no value; other 2xx resolve with the parsed JSON body (JSON
content-type, non-empty body) or the raw text; non-2xx raise
`AirtableError` carrying the status and, when the body was non-empty
JSON, the error payload. -/
def handleResponse (r : HttpResponse) : Except AirtableError RespData :=
  if r.status = 204 then .ok .noContent
  else
    let isJson := strIncludes r.contentType "application/json"
    let hasBody := r.bodyText != ""
    if respOk r.status then
      .ok (if isJson && hasBody then .json r.bodyText else .text r.bodyText)
    else
      .error ⟨r.status, if isJson && hasBody then some r.bodyText else none⟩

/-- Retry-relevant configuration of `AirtableCoreClient`, with the
constructor defaults (`noRetryIfRateLimited ?? true`, `maxRetries ?? 5`,
`retryOnStatuses ?? [429, 500, 502, 503, 504]`). -/
structure CoreRetryConfig where
  noRetryIfRateLimited : Bool := true
  maxRetries : Nat := 5
  retryOnStatuses : List Nat := [429, 500, 502, 503, 504]
deriving DecidableEq, Repr

/-- Embedding of `AirtableCoreClient.shouldRetry`: no retry once
`attempt >= maxRetries`; no retry of 429 while `noRetryIfRateLimited`
is set; otherwise retry when the status is in `retryOnStatuses`. -/
def shouldRetry (cfg : CoreRetryConfig) (status attempt : Nat) : Bool :=
  if cfg.maxRetries ≤ attempt then false
  else if cfg.noRetryIfRateLimited && status == 429 then false
  else cfg.retryOnStatuses.contains status

/-- Embedding of the `while (true)` loop of
`AirtableCoreClient.requestJson`, starting at the given attempt
counter.  The transport is modelled as a function from the attempt
index to the response of that fetch call; the result pairs the number
of transport calls performed with the final outcome.  Header
composition and the backoff sleep between attempts are omitted: they do
not affect the call count or the outcome. -/
def requestLoop (cfg : CoreRetryConfig) (transport : Nat → HttpResponse)
    (attempt : Nat) : Nat × Except AirtableError RespData :=
  let r := transport attempt
  if h : shouldRetry cfg r.status attempt = true then
    let rest := requestLoop cfg transport (attempt + 1)
    (rest.1 + 1, rest.2)
  else
    (1, handleResponse r)
termination_by cfg.maxRetries - attempt
decreasing_by
  have hlt : attempt < cfg.maxRetries := by
    by_contra hge
    push_neg at hge
    simp [shouldRetry, hge] at h
  omega

/-- Embedding of `AirtableCoreClient.requestJson` (attempt counter
starts at 0). -/
def requestJson (cfg : CoreRetryConfig) (transport : Nat → HttpResponse) :
    Nat × Except AirtableError RespData :=
  requestLoop cfg transport 0

theorem requestLoop_const_status (cfg : CoreRetryConfig) (transport : Nat → HttpResponse)
    (s : Nat) (hs : ∀ n, (transport n).status = s)
    (hmem : cfg.retryOnStatuses.contains s = true)
    (h429 : cfg.noRetryIfRateLimited = false ∨ s ≠ 429) :
    ∀ n a, cfg.maxRetries - a = n → a ≤ cfg.maxRetries →
      requestLoop cfg transport a =
        (cfg.maxRetries - a + 1, handleResponse (transport cfg.maxRetries)) := by
  intro n
  induction n with
  | zero =>
    intro a h0 ha
    have heq : a = cfg.maxRetries := by omega
    have hsr : shouldRetry cfg (transport a).status a = false := by
      simp [shouldRetry, heq]
    rw [requestLoop, dif_neg (by rw [hsr]; exact Bool.false_ne_true), heq]
    have hz : cfg.maxRetries - cfg.maxRetries + 1 = 1 := by omega
    rw [hz]
  | succ n ih =>
    intro a hn ha
    have hlt : a < cfg.maxRetries := by omega
    have hsr : shouldRetry cfg (transport a).status a = true := by
      rw [hs a]
      simp only [shouldRetry]
      rw [if_neg (by omega)]
      have hguard : (cfg.noRetryIfRateLimited && (s == 429)) = false := by
        rcases h429 with h429 | h429
        · rw [h429]
          rfl
        · have hbe : (s == 429) = false := by simpa using h429
          rw [hbe, Bool.and_false]
      rw [if_neg (by rw [hguard]; exact Bool.false_ne_true)]
      exact hmem
    rw [requestLoop, dif_pos hsr]
    have ihr := ih (a + 1) (by omega) (by omega)
    rw [ihr]
    have hc : cfg.maxRetries - (a + 1) + 1 + 1 = cfg.maxRetries - a + 1 := by omega
    simp only [hc]

/-- C3 (amended): with `maxRetries = N` and a transport that always
returns one fixed status eligible for retry (in `retryOnStatuses` and
not blocked by the `noRetryIfRateLimited` switch), `requestJson`
terminates after exactly `N + 1` transport calls, its outcome is the
interpretation of the final response, and that outcome is the terminal
typed API error carrying the status exactly when the status is not a
2xx success status (a 2xx status that was configured as retryable
resolves successfully instead, still after `N + 1` calls). -/
theorem c3_retry_termination (cfg : CoreRetryConfig) (transport : Nat → HttpResponse)
    (s : Nat) (hs : ∀ n, (transport n).status = s)
    (hmem : cfg.retryOnStatuses.contains s = true)
    (h429 : cfg.noRetryIfRateLimited = false ∨ s ≠ 429) :
    (requestJson cfg transport).1 = cfg.maxRetries + 1 ∧
    (requestJson cfg transport).2 = handleResponse (transport cfg.maxRetries) ∧
    ((∃ e, (requestJson cfg transport).2 = .error e ∧ e.status = s) ↔ respOk s = false) := by
  have hrun := requestLoop_const_status cfg transport s hs hmem h429
    (cfg.maxRetries - 0) 0 rfl (by omega)
  rw [requestJson, hrun]
  refine ⟨by omega, rfl, ?_⟩
  constructor
  · rintro ⟨e, he, hes⟩
    simp only [handleResponse] at he
    by_cases h204 : (transport cfg.maxRetries).status = 204
    · rw [if_pos h204] at he
      simp at he
    · rw [if_neg h204] at he
      by_cases hok : respOk (transport cfg.maxRetries).status = true
      · simp only [hok, if_true] at he
        simp at he
      · rw [hs cfg.maxRetries] at hok
        simpa using hok
  · intro hnotok
    have h204 : (transport cfg.maxRetries).status ≠ 204 := by
      rw [hs cfg.maxRetries]
      intro hc
      rw [hc] at hnotok
      simp [respOk] at hnotok
    have hok : respOk (transport cfg.maxRetries).status = false := by
      rw [hs cfg.maxRetries]; exact hnotok
    refine ⟨⟨s, if strIncludes (transport cfg.maxRetries).contentType "application/json"
        && ((transport cfg.maxRetries).bodyText != "") then
        some (transport cfg.maxRetries).bodyText else none⟩, ?_, rfl⟩
    simp only [handleResponse, if_neg h204]
    rw [if_neg (by simp [hok])]
    rw [hs cfg.maxRetries]

/-- Witness for C3 at a concrete configuration: `maxRetries = 2`,
retryable set `[500]`, transport always answering 500. -/
theorem c3_witness :
    (requestJson ⟨true, 2, [500]⟩ (fun _ => ⟨500, "", "", none⟩)).1 = 2 + 1 ∧
    (requestJson ⟨true, 2, [500]⟩ (fun _ => ⟨500, "", "", none⟩)).2 =
      handleResponse ⟨500, "", "", none⟩ ∧
    ((∃ e, (requestJson ⟨true, 2, [500]⟩ (fun _ => ⟨500, "", "", none⟩)).2 =
        .error e ∧ e.status = 500) ↔ respOk 500 = false) :=
  c3_retry_termination ⟨true, 2, [500]⟩ (fun _ => ⟨500, "", "", none⟩) 500
    (fun _ => rfl) (by decide) (Or.inr (by decide))

/-- Counterexample to C3 as stated: a 2xx status placed in
`retryOnStatuses` is eligible for retry on every attempt, yet after the
`maxRetries + 1` transport calls the call resolves successfully instead
of raising the terminal typed API error (here `maxRetries = 1`, the
transport always answers 200 with a plain-text body). -/
theorem c3_counterexample :
    requestJson ⟨true, 1, [200]⟩ (fun _ => ⟨200, "text/plain", "hi", none⟩) =
      (2, .ok (.text "hi")) := by
  have h0 : shouldRetry ⟨true, 1, [200]⟩ 200 0 = true := by decide
  have h1 : shouldRetry ⟨true, 1, [200]⟩ 200 1 = false := by decide
  rw [requestJson, requestLoop, dif_pos h0, requestLoop,
    dif_neg (by rw [h1]; exact Bool.false_ne_true)]
  simp +decide [handleResponse, respOk, strIncludes, listIncludes]

/-- C4: evaluation of the code at the end-to-end scenario 4 input
(transport answering 429 on attempt 0 and 200 on attempt 1,
`retryOnStatuses = [429]`, `maxRetries = 3`, every other option at its
constructor default — in particular `noRetryIfRateLimited` defaults to
`true`).  The code performs exactly one transport call and rejects with
the typed 429 error: `shouldRetry` refuses to retry 429 while
`noRetryIfRateLimited` is set, and that switch defaults to on.  The
claim (and the repository's own test of this exact scenario, which
expects two fetch calls and a successful resolution, as well as its
`shouldRetry(429, 0) === true` expectation at defaults) says otherwise:
the code contradicts its own test suite here. -/
theorem c4_429_scenario_evaluates_to_one_call :
    requestJson { maxRetries := 3, retryOnStatuses := [429] }
      (fun n => if n = 0 then ⟨429, "application/json", "ratelimitbody", none⟩
        else ⟨200, "application/json", "okbody", none⟩) =
      (1, .error ⟨429, some "ratelimitbody"⟩) := by
  rw [requestJson, requestLoop, dif_neg (by decide)]
  rfl

/-- Whether a character is left unescaped by `encodeURIComponent`
(ASCII alphanumerics and `- _ . ! ~ * ( )` and the apostrophe). -/
def isUnreservedChar (c : Char) : Bool :=
  let n := c.toNat
  (decide (65 ≤ n) && decide (n ≤ 90)) || (decide (97 ≤ n) && decide (n ≤ 122))
    || (decide (48 ≤ n) && decide (n ≤ 57))
    || (n == 45) || (n == 95) || (n == 46) || (n == 33) || (n == 126)
    || (n == 42) || (n == 39) || (n == 40) || (n == 41)

/-- Uppercase hexadecimal digit, as produced by `encodeURIComponent`. -/
def hexDigitU (n : Nat) : Char :=
  if n < 10 then Char.ofNat (48 + n) else Char.ofNat (55 + n)

/-- Percent-encoding of one byte. -/
def percentByte (b : Nat) : String :=
  String.mk [Char.ofNat 37, hexDigitU (b / 16), hexDigitU (b % 16)]

/-- UTF-8 bytes of a code point. -/
def utf8Bytes (n : Nat) : List Nat :=
  if n < 128 then [n]
  else if n < 2048 then [192 + n / 64, 128 + n % 64]
  else if n < 65536 then [224 + n / 4096, 128 + (n / 64) % 64, 128 + n % 64]
  else [240 + n / 262144, 128 + (n / 4096) % 64, 128 + (n / 64) % 64, 128 + n % 64]

/-- Embedding of `encodeURIComponent`: unreserved characters pass
through, every other character is replaced by the percent-encoding of
its UTF-8 bytes. -/
def encodeURIComponent (s : String) : String :=
  String.join (s.data.map (fun c =>
    if isUnreservedChar c then String.singleton c
    else String.join ((utf8Bytes c.toNat).map percentByte)))

example : encodeURIComponent "My Table" = "My%20Table" := by decide

/-- Modelled from the spec: the cache-key builder module (the source
functions `tablePrefix`, `recordPrefix`, `listKey`, `recordKey`
exported from the utils module) is not among the provided source files;
only its unit tests, its callers in the records client and the doc
examples in the serializer are.  Per the spec, a key concatenates a
fixed namespace token (`list` / `get`), the base identifier, the
URL-escaped table identifier and, for record-level keys, the record
identifier, followed by the stable serialization of the normalized
parameters (`stableStringify(params ?? \x7b\x7d)`).  The exact shape —
the leading `records:` token, `:` separators, and the fact that the
record identifier is inserted verbatim rather than URL-escaped (the
repository's tests assert that the table name is encoded but the
recordId is not, contrary to the spec's "URL-escaped record
identifier") — is pinned by the unit tests of these functions.  The
source name `tablePrefix` is rendered here as `tablePrefixKey` (and
`recordPrefix` as `recordPrefixKey`). -/
def tablePrefixKey (baseId tableIdOrName : String) : String :=
  "records:list:" ++ baseId ++ ":" ++ encodeURIComponent tableIdOrName ++ ":"

/-- Modelled from the spec: record-level key prefix (source
`recordPrefix`); see `tablePrefixKey` for provenance.  The record
identifier is inserted verbatim. -/
def recordPrefixKey (baseId tableIdOrName recordId : String) : String :=
  "records:get:" ++ baseId ++ ":" ++ encodeURIComponent tableIdOrName ++ ":"
    ++ recordId ++ ":"

/-- Modelled from the spec: table-scoped list cache key (source
`listKey`); prefix plus the stable serialization of the parameters,
with `\x7b\x7d` substituted for missing parameters (`params ?? \x7b\x7d`
creates a fresh empty object literal, here given identity tag 0 — the
serialization of an empty object does not depend on its tag).  The
serializer may throw on caller-supplied parameters, hence the `Except`
result. -/
def listKey (baseId tableIdOrName : String) (params : Option JValue) :
    Except String String :=
  (stableStringify (params.getD (.jobj 0 []))).map
    (fun s => tablePrefixKey baseId tableIdOrName ++ s)

/-- Modelled from the spec: record-scoped get cache key (source
`recordKey`); see `listKey`. -/
def recordKey (baseId tableIdOrName recordId : String) (params : Option JValue) :
    Except String String :=
  (stableStringify (params.getD (.jobj 0 []))).map
    (fun s => recordPrefixKey baseId tableIdOrName recordId ++ s)

theorem stableStringify_emptyObj (tag : Nat) :
    stableStringify (.jobj tag []) = .ok "\x7b\x7d" := by
  rw [stableStringify_char]
  simp +decide [tagsV, tagsFields, sortFields, pnormV, pnormFields, renderJson,
    renderFields, joinComma]

example : listKey "app123" "Tasks" none = .ok "records:list:app123:Tasks:\x7b\x7d" := by
  simp only [listKey, Option.getD, stableStringify_emptyObj, Except.map]
  exact congrArg Except.ok (by decide)

/-- Fields kept by normalization (supported values). -/
def keepField (q : String × JValue) : Bool :=
  !isUnsupported q.2

theorem pnormFields_filter (l : List (String × JValue)) :
    pnormFields l = (l.filter keepField).map (fun q => (q.1, pnormV q.2)) := by
  induction l with
  | nil => simp [pnormFields]
  | cons q l ih =>
    obtain ⟨k, v⟩ := q
    by_cases hu : isUnsupported v
    · simp [pnormFields, hu, List.filter, keepField, ih]
    · simp [pnormFields, hu, List.filter, keepField, ih]

theorem tagsFields_filter (l : List (String × JValue)) :
    tagsFields l = ((l.filter keepField).map (fun q => tagsV q.2)).flatten := by
  induction l with
  | nil => simp [tagsFields]
  | cons q l ih =>
    obtain ⟨k, v⟩ := q
    by_cases hu : isUnsupported v
    · simp [tagsFields, hu, List.filter, keepField, ih]
    · simp [tagsFields, hu, List.filter, keepField, ih]

theorem sortFields_append_unsupported_filter (fs : List (String × JValue))
    (p : String × JValue) (hp : isUnsupported p.2 = true)
    (hnd : ((fs ++ [p]).map Prod.fst).Nodup) :
    (sortFields (fs ++ [p])).filter keepField = (sortFields fs).filter keepField := by
  have h2 : (fs ++ [p]).filter keepField = fs.filter keepField := by
    rw [List.filter_append]
    simp [keepField, hp]
  have h1 : ((sortFields (fs ++ [p])).filter keepField).Perm ((fs ++ [p]).filter keepField) :=
    List.Perm.filter keepField (sortFields_perm (fs ++ [p]))
  rw [h2] at h1
  have h3 : ((sortFields fs).filter keepField).Perm (fs.filter keepField) :=
    List.Perm.filter keepField (sortFields_perm fs)
  apply keySorted_perm_eq
  · exact List.Pairwise.filter _ (sortFields_sorted _)
  · exact List.Pairwise.filter _ (sortFields_sorted _)
  · have hs1 : ((sortFields (fs ++ [p])).map Prod.fst).Nodup :=
      ((sortFields_perm _).map Prod.fst).symm.nodup hnd
    exact List.Nodup.sublist ((List.filter_sublist _).map Prod.fst) hs1
  · exact h1.trans h3.symm

/-- Cache-key equivalence core for the first page of `listAllRecords`:
appending an `offset` property whose value is the missing-value
sentinel (`undefined`) to a parameter object does not change its stable
serialization — the serializer drops unsupported property values. -/
theorem stableStringify_append_offset (tag t : Nat) (fs : List (String × JValue))
    (hoff : "offset" ∉ fs.map Prod.fst)
    (hkeys : (fs.map Prod.fst).Nodup)
    (htags : (tagsV (.jobj t fs)).Nodup)
    (htags2 : (tagsV (.jobj tag (fs ++ [("offset", JValue.jundef)]))).Nodup) :
    stableStringify (.jobj tag (fs ++ [("offset", JValue.jundef)])) =
      stableStringify (.jobj t fs) := by
  have hnd : ((fs ++ [("offset", JValue.jundef)]).map Prod.fst).Nodup := by
    rw [List.map_append, List.nodup_append]
    refine ⟨hkeys, by simp, ?_⟩
    intro a ha hb
    simp only [List.map_cons, List.map_nil, List.mem_singleton] at hb
    rw [hb] at ha
    exact hoff ha
  have hfilt := sortFields_append_unsupported_filter fs ("offset", JValue.jundef)
    (by simp [isUnsupported]) hnd
  rw [stableStringify_char, stableStringify_char, if_pos htags2, if_pos htags]
  have hp : pnormV (.jobj tag (fs ++ [("offset", JValue.jundef)])) = pnormV (.jobj t fs) := by
    simp only [pnormV]
    rw [pnormFields_filter, pnormFields_filter, hfilt]
  rw [hp]

/-- Embedding of a JavaScript object-spread property assignment
(`\x7b ...fields, key: v \x7d`): an existing key keeps its position and
gets the new value, a new key is appended. -/
def spreadSet (fields : List (String × JValue)) (key : String) (v : JValue) :
    List (String × JValue) :=
  if key ∈ fields.map Prod.fst then
    fields.map (fun p => if p.1 = key then (p.1, v) else p)
  else fields ++ [(key, v)]

/-- Embedding of the first-page parameter object built by
`listAllRecords` / `iterateRecords`: `\x7b ...(params ?? \x7b\x7d), offset \x7d`
with the local `offset` variable still `undefined`.  The spread creates
a fresh object literal, whose identity is the given tag. -/
def firstPageParams (tag : Nat) (params : Option JValue) : JValue :=
  .jobj tag (spreadSet
    (match params with
     | some (.jobj _ fs) => fs
     | _ => []) "offset" .jundef)

/-- C9: the first page fetched by `listAllRecords` (and
`iterateRecords`) uses exactly the cache key of a direct `listRecords`
call with the same parameters: the pagination loop adds an
`offset: undefined` property, and the stable serializer drops such
properties, making the serialized parameter objects — hence the keys —
byte-identical.  Stated both for object parameters (with the
JavaScript-guaranteed hypotheses: no `offset` key, duplicate-free keys,
fresh object identities) and for absent parameters. -/
theorem c9_first_page_key_equals_listRecords_key (base table : String) (tag t : Nat)
    (fs : List (String × JValue))
    (hoff : "offset" ∉ fs.map Prod.fst)
    (hkeys : (fs.map Prod.fst).Nodup)
    (htags : (tagsV (.jobj t fs)).Nodup)
    (htags2 : (tagsV (firstPageParams tag (some (.jobj t fs)))).Nodup) :
    listKey base table (some (firstPageParams tag (some (.jobj t fs)))) =
      listKey base table (some (.jobj t fs)) ∧
    listKey base table (some (firstPageParams tag none)) =
      listKey base table none := by
  have hspread : firstPageParams tag (some (.jobj t fs)) =
      .jobj tag (fs ++ [("offset", JValue.jundef)]) := by
    simp only [firstPageParams, spreadSet]
    rw [if_neg hoff]
  constructor
  · rw [hspread]
    rw [hspread] at htags2
    simp only [listKey, Option.getD]
    rw [stableStringify_append_offset tag t fs hoff hkeys htags htags2]
  · have htag1 : (tagsV (.jobj tag (([] : List (String × JValue)) ++ [("offset", JValue.jundef)]))).Nodup := by
      simp [tagsV, tagsFields, sortFields, insertField, isUnsupported]
    have htag0 : (tagsV (.jobj 0 ([] : List (String × JValue)))).Nodup := by
      simp [tagsV, tagsFields, sortFields]
    simp only [listKey, Option.getD, firstPageParams, spreadSet]
    rw [if_neg (by simp)]
    rw [show (([] : List (String × JValue)) ++ [("offset", JValue.jundef)]) =
      [("offset", JValue.jundef)] from rfl] at htag1
    rw [stableStringify_append_offset tag 0 [] (by simp) (by simp) htag0 htag1]

/-- Witness for C9 at concrete parameters `\x7b view: "Grid view" \x7d`. -/
theorem c9_witness :
    listKey "app123" "Tasks"
        (some (firstPageParams 9 (some (.jobj 5 [("view", .jstr "Grid view")])))) =
      listKey "app123" "Tasks" (some (.jobj 5 [("view", .jstr "Grid view")])) ∧
    listKey "app123" "Tasks" (some (firstPageParams 9 none)) =
      listKey "app123" "Tasks" none :=
  c9_first_page_key_equals_listRecords_key "app123" "Tasks" 9 5
    [("view", .jstr "Grid view")] (by decide) (by decide)
    (by simp +decide [tagsV, tagsFields, sortFields, insertField, isUnsupported])
    (by simp +decide [firstPageParams, spreadSet, tagsV, tagsFields, sortFields,
      insertField, isUnsupported])

/-- Embedding of `String.prototype.startsWith`. -/
def strStartsWith (s pre : String) : Bool :=
  pre.data.isPrefixOf s.data

/-- Airtable record (`AirtableRecord`): a stable identifier and a
field-value mapping (field payloads are opaque to the caching layer and
modelled as string pairs). -/
structure AirRecord where
  id : String
  fields : List (String × String)
deriving DecidableEq, Repr

/-- Result of a single `listRecords` page (`ListRecordsResult`). -/
structure ListRecordsResult where
  records : List AirRecord
  offset : Option String := none
deriving DecidableEq, Repr

/-- Result of `createRecords` (`CreateRecordsResult`). -/
structure CreateRecordsResult where
  records : List AirRecord
deriving DecidableEq, Repr

/-- Result of `updateRecords` (`UpdateRecordsResult`), with the
upsert-only members optional. -/
structure UpdateRecordsResult where
  records : List AirRecord
  createdRecords : Option (List AirRecord) := none
  updatedRecords : Option (List AirRecord) := none
deriving DecidableEq, Repr

/-- Per-record deletion status in a `DeleteRecordsResult`. -/
structure DeletedRecord where
  id : String
  deleted : Bool
deriving DecidableEq, Repr

/-- Result of `deleteRecords` (`DeleteRecordsResult`). -/
structure DeleteRecordsResult where
  records : List DeletedRecord
deriving DecidableEq, Repr

/-- Input of `createRecords` (`CreateRecordInput`). -/
structure CreateRecordInput where
  fields : List (String × String)
deriving DecidableEq, Repr

/-- Input of `updateRecords` (`UpdateRecordInput`). -/
structure UpdateRecordInput where
  id : String
  fields : List (String × String)
deriving DecidableEq, Repr

/-- Values the records client stores in a cache store: a list page
under a list key, or a single record under a get key (`unknown` in the
source; the records client only ever stores these two shapes). -/
inductive CachedValue where
  | listR (r : ListRecordsResult)
  | recR (r : AirRecord)
deriving DecidableEq, Repr

/-- Entry of the in-process store: `\x7b value, expiresAt? \x7d`. -/
structure CacheEntry where
  value : CachedValue
  expiresAt : Option Nat
deriving DecidableEq, Repr

/-- Embedding of `InMemoryCacheStore`: an insertion-ordered map (the
last entry is the most recently used) plus the capacity bound.  The
JavaScript `Map` is modelled as an association list with unique keys;
`Date.now()` is passed explicitly as `now`. -/
structure InMemoryCacheStore where
  map : List (String × CacheEntry)
  maxSize : Nat := 1000
deriving DecidableEq, Repr

/-- Expiry test used by `get` and `evictOne`
(`entry.expiresAt && entry.expiresAt < now` — note the truthiness
check: a zero timestamp never counts as expired, and the comparison is
strict). -/
def entryExpired (now : Nat) (e : CacheEntry) : Bool :=
  match e.expiresAt with
  | none => false
  | some t => (t != 0) && decide (t < now)

/-- Embedding of `InMemoryCacheStore.get`: absent keys miss; expired
entries are removed and miss; a live hit moves the entry to the
most-recently-used end and returns its value. -/
def InMemoryCacheStore.get (st : InMemoryCacheStore) (now : Nat) (key : String) :
    Option CachedValue × InMemoryCacheStore :=
  match st.map.lookup key with
  | none => (none, st)
  | some entry =>
      if entryExpired now entry then
        (none, { st with map := st.map.eraseP (fun p => p.1 == key) })
      else
        (some entry.value,
          { st with map := st.map.eraseP (fun p => p.1 == key) ++ [(key, entry)] })

/-- Embedding of `InMemoryCacheStore.evictOne`: remove the first
expired entry in insertion order; if none is expired, remove the first
(least recently used) key; on an empty map do nothing. -/
def evictOne (now : Nat) (m : List (String × CacheEntry)) : List (String × CacheEntry) :=
  if m.any (fun p => entryExpired now p.2) then
    m.eraseP (fun p => entryExpired now p.2)
  else m.tail

/-- Embedding of `InMemoryCacheStore.set`: an existing key is
overwritten in place and moved to the most-recently-used end without
capacity pressure; a new key first evicts one entry when the store is
at or above capacity, then is appended. -/
def InMemoryCacheStore.set (st : InMemoryCacheStore) (now : Nat) (key : String)
    (value : CachedValue) (ttlMs : Option Nat) : InMemoryCacheStore :=
  let expiresAt := ttlMs.map (fun ttl => now + ttl)
  if (st.map.lookup key).isSome then
    { st with map := st.map.eraseP (fun p => p.1 == key) ++ [(key, ⟨value, expiresAt⟩)] }
  else
    let m1 := if st.maxSize ≤ st.map.length then evictOne now st.map else st.map
    { st with map := m1 ++ [(key, ⟨value, expiresAt⟩)] }

/-- Embedding of `InMemoryCacheStore.deleteByPrefix` (rendered
`deleteByPrefixOp`): remove every key that starts with the prefix. -/
def InMemoryCacheStore.deleteByPrefixOp (st : InMemoryCacheStore) (pre : String) :
    InMemoryCacheStore :=
  { st with map := st.map.filter (fun p => !(strStartsWith p.1 pre)) }

/-- C6: when `set` inserts a new key into a store at (or above)
capacity, it evicts the first expired entry in insertion order whenever
some entry is expired — every live (non-expired) entry survives,
regardless of recency — and only falls back to evicting the least
recently used (first) entry when nothing is expired.  The new entry is
appended at the most-recently-used end with `expiresAt = now + ttl`. -/
theorem c6_expired_first_eviction (st : InMemoryCacheStore) (now : Nat) (key : String)
    (value : CachedValue) (ttl : Option Nat)
    (hnew : st.map.lookup key = none)
    (hcap : st.maxSize ≤ st.map.length) :
    ((∃ p ∈ st.map, entryExpired now p.2 = true) →
      ∃ p pre suf, st.map = pre ++ p :: suf ∧ entryExpired now p.2 = true ∧
        (∀ q ∈ pre, entryExpired now q.2 = false) ∧
        (st.set now key value ttl).map =
          (pre ++ suf) ++ [(key, ⟨value, ttl.map (fun t => now + t)⟩)] ∧
        (∀ q ∈ st.map, entryExpired now q.2 = false →
          q ∈ (st.set now key value ttl).map)) ∧
    ((∀ p ∈ st.map, entryExpired now p.2 = false) →
      (st.set now key value ttl).map =
        st.map.tail ++ [(key, ⟨value, ttl.map (fun t => now + t)⟩)]) := by
  have hsome : ((st.map.lookup key).isSome = true) = False := by
    rw [hnew]; simp
  constructor
  · rintro ⟨p, hp, hexp⟩
    obtain ⟨a, l₁, l₂, hl1, ha, heq, herase⟩ :=
      @List.exists_of_eraseP _ (fun q => entryExpired now q.2) st.map p hp hexp
    have hany : st.map.any (fun q => entryExpired now q.2) = true :=
      List.any_eq_true.mpr ⟨p, hp, hexp⟩
    have hseteq : (st.set now key value ttl).map =
        (l₁ ++ l₂) ++ [(key, ⟨value, ttl.map (fun t => now + t)⟩)] := by
      simp only [InMemoryCacheStore.set, hsome, if_false, if_pos hcap, evictOne,
        hany, if_true, herase]
    refine ⟨a, l₁, l₂, heq, ha, ?_, hseteq, ?_⟩
    · intro q hq
      have := hl1 q hq
      simpa using this
    · intro q hq hqlive
      rw [hseteq]
      rw [heq] at hq
      rcases List.mem_append.mp hq with hq1 | hq2
      · exact List.mem_append_left _ (List.mem_append_left _ hq1)
      · rcases List.mem_cons.mp hq2 with rfl | hq3
        · rw [hqlive] at ha; simp at ha
        · exact List.mem_append_left _ (List.mem_append_right _ hq3)
  · intro hall
    have hany : st.map.any (fun q => entryExpired now q.2) = false := by
      rw [List.any_eq_false]
      intro q hq
      simp [hall q hq]
    simp only [InMemoryCacheStore.set, hsome, if_false, if_pos hcap, evictOne,
      hany, Bool.false_eq_true, if_false]

/-- Witness for C6 at the claim scenario: a store of capacity 2 holding
a live entry at the least-recently-used position and an expired entry
behind it; inserting a new key evicts the expired entry, never the live
one. -/
theorem c6_witness :
    ((∃ p ∈ (InMemoryCacheStore.mk
        [("live", ⟨.recR ⟨"r1", []⟩, none⟩), ("exp", ⟨.recR ⟨"r2", []⟩, some 5⟩)] 2).map,
        entryExpired 10 p.2 = true) →
      ∃ p pre suf, (InMemoryCacheStore.mk
          [("live", ⟨.recR ⟨"r1", []⟩, none⟩), ("exp", ⟨.recR ⟨"r2", []⟩, some 5⟩)] 2).map =
            pre ++ p :: suf ∧
        entryExpired 10 p.2 = true ∧
        (∀ q ∈ pre, entryExpired 10 q.2 = false) ∧
        ((InMemoryCacheStore.mk
          [("live", ⟨.recR ⟨"r1", []⟩, none⟩), ("exp", ⟨.recR ⟨"r2", []⟩, some 5⟩)] 2).set
            10 "new" (.recR ⟨"r3", []⟩) none).map =
          (pre ++ suf) ++ [("new", ⟨.recR ⟨"r3", []⟩, none⟩)] ∧
        (∀ q ∈ (InMemoryCacheStore.mk
            [("live", ⟨.recR ⟨"r1", []⟩, none⟩), ("exp", ⟨.recR ⟨"r2", []⟩, some 5⟩)] 2).map,
          entryExpired 10 q.2 = false →
          q ∈ ((InMemoryCacheStore.mk
            [("live", ⟨.recR ⟨"r1", []⟩, none⟩), ("exp", ⟨.recR ⟨"r2", []⟩, some 5⟩)] 2).set
              10 "new" (.recR ⟨"r3", []⟩) none).map)) ∧
    ((∀ p ∈ (InMemoryCacheStore.mk
        [("live", ⟨.recR ⟨"r1", []⟩, none⟩), ("exp", ⟨.recR ⟨"r2", []⟩, some 5⟩)] 2).map,
        entryExpired 10 p.2 = false) →
      ((InMemoryCacheStore.mk
        [("live", ⟨.recR ⟨"r1", []⟩, none⟩), ("exp", ⟨.recR ⟨"r2", []⟩, some 5⟩)] 2).set
          10 "new" (.recR ⟨"r3", []⟩) none).map =
        (InMemoryCacheStore.mk
          [("live", ⟨.recR ⟨"r1", []⟩, none⟩), ("exp", ⟨.recR ⟨"r2", []⟩, some 5⟩)] 2).map.tail
          ++ [("new", ⟨.recR ⟨"r3", []⟩, none⟩)]) :=
  c6_expired_first_eviction
    (InMemoryCacheStore.mk
      [("live", ⟨.recR ⟨"r1", []⟩, none⟩), ("exp", ⟨.recR ⟨"r2", []⟩, some 5⟩)] 2)
    10 "new" (.recR ⟨"r3", []⟩) none (by decide) (by decide)

/-- Pluggable cache store capability (`AirtableCacheStore`), modelled
as a state machine over an abstract store state `σ`: `get` and `set`
are required, prefix deletion (`deleteByPrefix`, rendered
`deleteByPrefixOp`) is optional — absence disables bulk invalidation.
Each operation returns either its value or a thrown error (modelled as
a `String`), together with the possibly mutated store state. -/
structure CacheStore (σ : Type) where
  get : σ → String → Except String (Option CachedValue) × σ
  set : σ → String → CachedValue → Option Nat → Except String Unit × σ
  deleteByPrefixOp : Option (σ → String → Except String Unit × σ)

/-- Context handed to the optional `onError` observer
(`AirtableRecordsCacheOnErrorContext`): the failed operation
(`"get"` / `"set"` / `"delete"`), and the key or prefix involved (the
source field `prefix` is rendered `pfx`). -/
structure AirtableRecordsCacheOnErrorContext where
  op : String
  key : Option String := none
  pfx : Option String := none
deriving DecidableEq, Repr

/-- Per-instance cache options of the records client
(`AirtableRecordsCacheOptions`): the optional store, the default TTL,
the per-method toggles actually read by the code
(`methods?.listRecords`, `methods?.getRecord`), whether an `onError`
observer was supplied, and the `failOnCacheError` switch.  An absent
options bag is represented by `store := none` with the defaults. -/
structure AirtableRecordsCacheOptions (σ : Type) where
  store : Option (CacheStore σ)
  defaultTtlMs : Option Nat := none
  methodsListRecords : Option Bool := none
  methodsGetRecord : Option Bool := none
  onErrorPresent : Bool := false
  failOnCacheError : Bool := false

/-- Failure channel of a records-client operation: the transport's
typed API error, a cache error re-raised under `failOnCacheError`, or
the serializer's `TypeError` thrown while computing the cache key. -/
inductive OpFailure where
  | api (e : AirtableError)
  | cache (e : String)
  | keyError (e : String)
deriving DecidableEq, Repr

/-- Observable outcome of one records-client operation: the result or
failure, the final store state, the number of `requestJson` transport
calls performed, and the `(error, context)` invocations of the
`onError` observer in order. -/
structure OpResult (σ α : Type) where
  result : Except OpFailure α
  state : σ
  transportCalls : Nat
  observed : List (String × AirtableRecordsCacheOnErrorContext)

/-- Embedding of `AirtableRecordsClient.handleCacheError`: invoke the
observer when present, then re-raise exactly when `failOnCacheError`
is set.  Returns the raise/swallow decision and the observer
invocations. -/
def handleCacheError {σ : Type} (opts : AirtableRecordsCacheOptions σ) (e : String)
    (ctx : AirtableRecordsCacheOnErrorContext) :
    Except OpFailure Unit × List (String × AirtableRecordsCacheOnErrorContext) :=
  let obs := if opts.onErrorPresent then [(e, ctx)] else []
  (if opts.failOnCacheError then .error (.cache e) else .ok (), obs)

/-- Embedding of `AirtableRecordsClient.cacheGet`: no store means a
miss; a store error goes through `handleCacheError` and, when
swallowed, behaves as a miss. -/
def cacheGet {σ : Type} (opts : AirtableRecordsCacheOptions σ) (s : σ) (key : String) :
    Except OpFailure (Option CachedValue) × σ
      × List (String × AirtableRecordsCacheOnErrorContext) :=
  match opts.store with
  | none => (.ok none, s, [])
  | some st =>
      match st.get s key with
      | (.ok v, s1) => (.ok v, s1, [])
      | (.error e, s1) =>
          match handleCacheError opts e { op := "get", key := some key } with
          | (.error f, obs) => (.error f, s1, obs)
          | (.ok _, obs) => (.ok none, s1, obs)

/-- Embedding of `AirtableRecordsClient.cacheSet` (writes with
`defaultTtlMs`; errors routed through `handleCacheError`). -/
def cacheSet {σ : Type} (opts : AirtableRecordsCacheOptions σ) (s : σ) (key : String)
    (value : CachedValue) :
    Except OpFailure Unit × σ × List (String × AirtableRecordsCacheOnErrorContext) :=
  match opts.store with
  | none => (.ok (), s, [])
  | some st =>
      match st.set s key value opts.defaultTtlMs with
      | (.ok _, s1) => (.ok (), s1, [])
      | (.error e, s1) =>
          match handleCacheError opts e { op := "set", key := some key } with
          | (.error f, obs) => (.error f, s1, obs)
          | (.ok _, obs) => (.ok (), s1, obs)

/-- Embedding of `AirtableRecordsClient.cacheDeleteByPrefix`: a no-op
without a store or without the optional capability; errors routed
through `handleCacheError` with a `delete` context. -/
def cacheDeleteByPrefixRun {σ : Type} (opts : AirtableRecordsCacheOptions σ) (s : σ)
    (pre : String) :
    Except OpFailure Unit × σ × List (String × AirtableRecordsCacheOnErrorContext) :=
  match opts.store with
  | none => (.ok (), s, [])
  | some st =>
      match st.deleteByPrefixOp with
      | none => (.ok (), s, [])
      | some f =>
          match f s pre with
          | (.ok _, s1) => (.ok (), s1, [])
          | (.error e, s1) =>
              match handleCacheError opts e { op := "delete", pfx := some pre } with
              | (.error g, obs) => (.error g, s1, obs)
              | (.ok _, obs) => (.ok (), s1, obs)

/-- Models the unchecked TypeScript cast of a cached value back to a
list page (`cacheGet<ListRecordsResult<TFields>>`); the records client
only ever stores list pages under list keys, so the second branch is
unreachable in any scenario verified here. -/
def castList : CachedValue → ListRecordsResult
  | .listR r => r
  | .recR _ => ⟨[], none⟩

/-- Models the unchecked cast of a cached value back to a record. -/
def castRec : CachedValue → AirRecord
  | .recR r => r
  | .listR _ => ⟨"", []⟩

/-- Embedding of `AirtableRecordsClient.listRecords`: decide whether
this call caches (`store configured && methods?.listRecords ?? true`),
compute the list key (the serializer may throw), consult the store,
return a present value without touching the transport, otherwise
perform the single `requestJson` call (its outcome is the `request`
argument) and write the result through before returning it. -/
def listRecords {σ : Type} (opts : AirtableRecordsCacheOptions σ)
    (baseId tableIdOrName : String) (params : Option JValue)
    (request : Except AirtableError ListRecordsResult) (s : σ) :
    OpResult σ ListRecordsResult :=
  let shouldCache := opts.store.isSome && (opts.methodsListRecords.getD true)
  if shouldCache then
    match listKey baseId tableIdOrName params with
    | .error e => ⟨.error (.keyError e), s, 0, []⟩
    | .ok key =>
        match cacheGet opts s key with
        | (.error f, s1, obs) => ⟨.error f, s1, 0, obs⟩
        | (.ok (some v), s1, obs) => ⟨.ok (castList v), s1, 0, obs⟩
        | (.ok none, s1, obs) =>
            match request with
            | .error e => ⟨.error (.api e), s1, 1, obs⟩
            | .ok result =>
                match cacheSet opts s1 key (.listR result) with
                | (.error f, s2, obs2) => ⟨.error f, s2, 1, obs ++ obs2⟩
                | (.ok _, s2, obs2) => ⟨.ok result, s2, 1, obs ++ obs2⟩
  else
    match request with
    | .error e => ⟨.error (.api e), s, 1, []⟩
    | .ok result => ⟨.ok result, s, 1, []⟩

/-- Embedding of `AirtableRecordsClient.getRecord` (same shape as
`listRecords`, with the record key and the `methods?.getRecord`
toggle). -/
def getRecord {σ : Type} (opts : AirtableRecordsCacheOptions σ)
    (baseId tableIdOrName recordId : String) (params : Option JValue)
    (request : Except AirtableError AirRecord) (s : σ) : OpResult σ AirRecord :=
  let shouldCache := opts.store.isSome && (opts.methodsGetRecord.getD true)
  if shouldCache then
    match recordKey baseId tableIdOrName recordId params with
    | .error e => ⟨.error (.keyError e), s, 0, []⟩
    | .ok key =>
        match cacheGet opts s key with
        | (.error f, s1, obs) => ⟨.error f, s1, 0, obs⟩
        | (.ok (some v), s1, obs) => ⟨.ok (castRec v), s1, 0, obs⟩
        | (.ok none, s1, obs) =>
            match request with
            | .error e => ⟨.error (.api e), s1, 1, obs⟩
            | .ok result =>
                match cacheSet opts s1 key (.recR result) with
                | (.error f, s2, obs2) => ⟨.error f, s2, 1, obs ++ obs2⟩
                | (.ok _, s2, obs2) => ⟨.ok result, s2, 1, obs ++ obs2⟩
  else
    match request with
    | .error e => ⟨.error (.api e), s, 1, []⟩
    | .ok result => ⟨.ok result, s, 1, []⟩

/-- Embedding of `AirtableRecordsClient.invalidateRecords`: one
record-level prefix deletion per affected record identifier.  The
source launches them through `Promise.all`; under the single-threaded
cooperative model all of them run to completion (observer callbacks
included) and the first error, if any, is the one `Promise.all`
rejects with — modelled by sequential state threading that never
short-circuits. -/
def invalidateRecordsRun {σ : Type} (opts : AirtableRecordsCacheOptions σ)
    (baseId tableIdOrName : String) (recordIds : List String) (s : σ) :
    Except OpFailure Unit × σ × List (String × AirtableRecordsCacheOnErrorContext) :=
  match recordIds with
  | [] => (.ok (), s, [])
  | rid :: rest =>
      let r1 := cacheDeleteByPrefixRun opts s (recordPrefixKey baseId tableIdOrName rid)
      let r2 := invalidateRecordsRun opts baseId tableIdOrName rest r1.2.1
      ((match r1.1 with
        | .error f => .error f
        | .ok _ => r2.1), r2.2.1, r1.2.2 ++ r2.2.2)

/-- Embedding of `AirtableRecordsClient.updateRecord`: one `PATCH`
transport call (outcome given as `request`); on success, `Promise.all`
of the table-level and the record-level prefix invalidation (both run,
first error wins), then the updated record is returned. -/
def updateRecord {σ : Type} (opts : AirtableRecordsCacheOptions σ)
    (baseId tableIdOrName recordId : String)
    (request : Except AirtableError AirRecord) (s : σ) : OpResult σ AirRecord :=
  match request with
  | .error e => ⟨.error (.api e), s, 1, []⟩
  | .ok updatedRecord =>
      let r1 := cacheDeleteByPrefixRun opts s (tablePrefixKey baseId tableIdOrName)
      let r2 := cacheDeleteByPrefixRun opts r1.2.1
        (recordPrefixKey baseId tableIdOrName recordId)
      ⟨(match r1.1 with
        | .error f => .error f
        | .ok _ =>
            match r2.1 with
            | .error f => .error f
            | .ok _ => .ok updatedRecord), r2.2.1, 1, r1.2.2 ++ r2.2.2⟩

/-- Batch size limit of the Airtable API (`MAX_RECORDS_PER_BATCH`). -/
def MAX_RECORDS_PER_BATCH : Nat := 10

/-- Splits an input list into the batches the mutation loops send
(`records.slice(i, i + MAX_RECORDS_PER_BATCH)` for
`i = 0, 10, 20, ...`). -/
def toBatches {α : Type} (l : List α) : List (List α) :=
  match l with
  | [] => []
  | x :: xs =>
      (x :: xs).take MAX_RECORDS_PER_BATCH
        :: toBatches ((x :: xs).drop MAX_RECORDS_PER_BATCH)
termination_by l.length
decreasing_by
  simp [MAX_RECORDS_PER_BATCH]
  omega

/-- Runs the `createRecords` batch loop: one transport call per batch,
accumulating the created records; a failing batch rejects at once. -/
def runCreateBatches (transport : Nat → Except AirtableError CreateRecordsResult) :
    Nat → Nat → Nat × Except AirtableError (List AirRecord)
  | 0, _ => (0, .ok [])
  | n + 1, i =>
      match transport i with
      | .error e => (1, .error e)
      | .ok resp =>
          let rest := runCreateBatches transport n (i + 1)
          (rest.1 + 1, rest.2.map (fun l => resp.records ++ l))

/-- Embedding of `AirtableRecordsClient.createRecords`: an empty input
resolves with `\x7b records: [] \x7d` immediately (no transport, no
invalidation); otherwise the batch loop runs, and on success the
table-level prefix is invalidated before returning the flattened
records. -/
def createRecords {σ : Type} (opts : AirtableRecordsCacheOptions σ)
    (baseId tableIdOrName : String) (records : List CreateRecordInput)
    (transport : Nat → Except AirtableError CreateRecordsResult) (s : σ) :
    OpResult σ CreateRecordsResult :=
  if records.length = 0 then ⟨.ok ⟨[]⟩, s, 0, []⟩
  else
    let run := runCreateBatches transport (toBatches records).length 0
    match run.2 with
    | .error e => ⟨.error (.api e), s, run.1, []⟩
    | .ok created =>
        let r1 := cacheDeleteByPrefixRun opts s (tablePrefixKey baseId tableIdOrName)
        ⟨(match r1.1 with
          | .error f => .error f
          | .ok _ => .ok ⟨created⟩), r1.2.1, run.1, r1.2.2⟩

/-- Runs the `updateRecords` batch loop, accumulating `records`,
`createdRecords` and `updatedRecords` from each batch response. -/
def runUpdateBatches (transport : Nat → Except AirtableError UpdateRecordsResult) :
    Nat → Nat → Nat × Except AirtableError (List AirRecord × List AirRecord × List AirRecord)
  | 0, _ => (0, .ok ([], [], []))
  | n + 1, i =>
      match transport i with
      | .error e => (1, .error e)
      | .ok resp =>
          let rest := runUpdateBatches transport n (i + 1)
          (rest.1 + 1, rest.2.map (fun t =>
            (resp.records ++ t.1, resp.createdRecords.getD [] ++ t.2.1,
              resp.updatedRecords.getD [] ++ t.2.2)))

/-- Embedding of `AirtableRecordsClient.updateRecords`: empty input
short-circuits with `\x7b records: [] \x7d`; otherwise batches run, the
result carries `createdRecords` / `updatedRecords` only when non-empty,
and `Promise.all` of the table-level invalidation and the per-record
invalidation of every input id completes before returning. -/
def updateRecords {σ : Type} (opts : AirtableRecordsCacheOptions σ)
    (baseId tableIdOrName : String) (records : List UpdateRecordInput)
    (transport : Nat → Except AirtableError UpdateRecordsResult) (s : σ) :
    OpResult σ UpdateRecordsResult :=
  if records.length = 0 then ⟨.ok ⟨[], none, none⟩, s, 0, []⟩
  else
    let run := runUpdateBatches transport (toBatches records).length 0
    match run.2 with
    | .error e => ⟨.error (.api e), s, run.1, []⟩
    | .ok acc =>
        let result : UpdateRecordsResult :=
          ⟨acc.1, if acc.2.1.length ≠ 0 then some acc.2.1 else none,
            if acc.2.2.length ≠ 0 then some acc.2.2 else none⟩
        let r1 := cacheDeleteByPrefixRun opts s (tablePrefixKey baseId tableIdOrName)
        let r2 := invalidateRecordsRun opts baseId tableIdOrName
          (records.map (fun r => r.id)) r1.2.1
        ⟨(match r1.1 with
          | .error f => .error f
          | .ok _ =>
              match r2.1 with
              | .error f => .error f
              | .ok _ => .ok result), r2.2.1, run.1, r1.2.2 ++ r2.2.2⟩

/-- Runs the `deleteRecords` batch loop. -/
def runDeleteBatches (transport : Nat → Except AirtableError DeleteRecordsResult) :
    Nat → Nat → Nat × Except AirtableError (List DeletedRecord)
  | 0, _ => (0, .ok [])
  | n + 1, i =>
      match transport i with
      | .error e => (1, .error e)
      | .ok resp =>
          let rest := runDeleteBatches transport n (i + 1)
          (rest.1 + 1, rest.2.map (fun l => resp.records ++ l))

/-- Embedding of `AirtableRecordsClient.deleteRecords`: empty input
short-circuits with `\x7b records: [] \x7d`; otherwise batches run and
`Promise.all` of the table-level invalidation and the per-record
invalidation of every input id completes before returning. -/
def deleteRecords {σ : Type} (opts : AirtableRecordsCacheOptions σ)
    (baseId tableIdOrName : String) (recordIds : List String)
    (transport : Nat → Except AirtableError DeleteRecordsResult) (s : σ) :
    OpResult σ DeleteRecordsResult :=
  if recordIds.length = 0 then ⟨.ok ⟨[]⟩, s, 0, []⟩
  else
    let run := runDeleteBatches transport (toBatches recordIds).length 0
    match run.2 with
    | .error e => ⟨.error (.api e), s, run.1, []⟩
    | .ok deleted =>
        let r1 := cacheDeleteByPrefixRun opts s (tablePrefixKey baseId tableIdOrName)
        let r2 := invalidateRecordsRun opts baseId tableIdOrName recordIds r1.2.1
        ⟨(match r1.1 with
          | .error f => .error f
          | .ok _ =>
              match r2.1 with
              | .error f => .error f
              | .ok _ => .ok ⟨deleted⟩), r2.2.1, run.1, r1.2.2 ++ r2.2.2⟩

/-- C10: for every table and configuration, `createRecords`,
`updateRecords` and `deleteRecords` called with an empty input list
resolve with `\x7b records: [] \x7d`, perform no transport call and no
cache invalidation, and leave the store state untouched. -/
theorem c10_empty_batch_mutations {σ : Type} (opts : AirtableRecordsCacheOptions σ)
    (baseId tableIdOrName : String)
    (trC : Nat → Except AirtableError CreateRecordsResult)
    (trU : Nat → Except AirtableError UpdateRecordsResult)
    (trD : Nat → Except AirtableError DeleteRecordsResult) (s : σ) :
    createRecords opts baseId tableIdOrName [] trC s = ⟨.ok ⟨[]⟩, s, 0, []⟩ ∧
    updateRecords opts baseId tableIdOrName [] trU s = ⟨.ok ⟨[], none, none⟩, s, 0, []⟩ ∧
    deleteRecords opts baseId tableIdOrName [] trD s = ⟨.ok ⟨[]⟩, s, 0, []⟩ :=
  ⟨rfl, rfl, rfl⟩

/-- C5: cached reads with a configured store and the method toggle not
disabled.  On a hit (the store yields a present value) the value is
returned with zero transport calls; on a miss the transport is invoked
exactly once and the fetched result is written through to the store
under the same key before being returned.  Stated for both cacheable
reads, `listRecords` and `getRecord`. -/
theorem c5_read_through_hit_and_miss (σ : Type) :
    (∀ (st : CacheStore σ) (opts : AirtableRecordsCacheOptions σ)
        (b T : String) (params : Option JValue) (key : String) (v : ListRecordsResult)
        (req : Except AirtableError ListRecordsResult) (s s1 : σ),
      opts.store = some st →
      opts.methodsListRecords ≠ some false →
      listKey b T params = .ok key →
      st.get s key = (.ok (some (.listR v)), s1) →
      listRecords opts b T params req s = ⟨.ok v, s1, 0, []⟩) ∧
    (∀ (st : CacheStore σ) (opts : AirtableRecordsCacheOptions σ)
        (b T : String) (params : Option JValue) (key : String) (v : ListRecordsResult)
        (s s1 s2 : σ),
      opts.store = some st →
      opts.methodsListRecords ≠ some false →
      listKey b T params = .ok key →
      st.get s key = (.ok none, s1) →
      st.set s1 key (.listR v) opts.defaultTtlMs = (.ok (), s2) →
      listRecords opts b T params (.ok v) s = ⟨.ok v, s2, 1, []⟩) ∧
    (∀ (st : CacheStore σ) (opts : AirtableRecordsCacheOptions σ)
        (b T rid : String) (params : Option JValue) (key : String) (v : AirRecord)
        (req : Except AirtableError AirRecord) (s s1 : σ),
      opts.store = some st →
      opts.methodsGetRecord ≠ some false →
      recordKey b T rid params = .ok key →
      st.get s key = (.ok (some (.recR v)), s1) →
      getRecord opts b T rid params req s = ⟨.ok v, s1, 0, []⟩) ∧
    (∀ (st : CacheStore σ) (opts : AirtableRecordsCacheOptions σ)
        (b T rid : String) (params : Option JValue) (key : String) (v : AirRecord)
        (s s1 s2 : σ),
      opts.store = some st →
      opts.methodsGetRecord ≠ some false →
      recordKey b T rid params = .ok key →
      st.get s key = (.ok none, s1) →
      st.set s1 key (.recR v) opts.defaultTtlMs = (.ok (), s2) →
      getRecord opts b T rid params (.ok v) s = ⟨.ok v, s2, 1, []⟩) := by
  refine ⟨?_, ?_, ?_, ?_⟩
  · intro st opts b T params key v req s s1 hst hm hkey hget
    have hms : opts.methodsListRecords.getD true = true := by
      cases hval : opts.methodsListRecords with
      | none => rfl
      | some bl => cases bl with
        | false => exact absurd hval hm
        | true => rfl
    simp [listRecords, hst, hms, hkey, cacheGet, hget, castList]
  · intro st opts b T params key v s s1 s2 hst hm hkey hget hset
    have hms : opts.methodsListRecords.getD true = true := by
      cases hval : opts.methodsListRecords with
      | none => rfl
      | some bl => cases bl with
        | false => exact absurd hval hm
        | true => rfl
    simp [listRecords, hst, hms, hkey, cacheGet, hget, cacheSet, hset]
  · intro st opts b T rid params key v req s s1 hst hm hkey hget
    have hms : opts.methodsGetRecord.getD true = true := by
      cases hval : opts.methodsGetRecord with
      | none => rfl
      | some bl => cases bl with
        | false => exact absurd hval hm
        | true => rfl
    simp [getRecord, hst, hms, hkey, cacheGet, hget, castRec]
  · intro st opts b T rid params key v s s1 s2 hst hm hkey hget hset
    have hms : opts.methodsGetRecord.getD true = true := by
      cases hval : opts.methodsGetRecord with
      | none => rfl
      | some bl => cases bl with
        | false => exact absurd hval hm
        | true => rfl
    simp [getRecord, hst, hms, hkey, cacheGet, hget, cacheSet, hset]

/-- Store used by the C5 witness: always hits with a list page. -/
def c5HitListStore : CacheStore Nat :=
  ⟨fun s _ => (.ok (some (.listR ⟨[], none⟩)), s + 1),
    fun s _ _ _ => (.ok (), s + 10), none⟩

/-- Store used by the C5 witness: always hits with a record. -/
def c5HitRecStore : CacheStore Nat :=
  ⟨fun s _ => (.ok (some (.recR ⟨"r1", []⟩)), s + 1),
    fun s _ _ _ => (.ok (), s + 10), none⟩

/-- Store used by the C5 witness: always misses, accepts writes. -/
def c5MissStore : CacheStore Nat :=
  ⟨fun s _ => (.ok none, s + 1), fun s _ _ _ => (.ok (), s + 10), none⟩

theorem listKeyEvalNone : listKey "b" "T" none = .ok "records:list:b:T:\x7b\x7d" := by
  simp only [listKey, Option.getD, stableStringify_emptyObj, Except.map]
  exact congrArg Except.ok (by decide)

theorem recordKeyEvalNone : recordKey "b" "T" "r1" none = .ok "records:get:b:T:r1:\x7b\x7d" := by
  simp only [recordKey, Option.getD, stableStringify_emptyObj, Except.map]
  exact congrArg Except.ok (by decide)

/-- Witness for C5: hit and miss runs of both reads against concrete
stores (state counts the store operations performed). -/
theorem c5_witness :
    listRecords { store := some c5HitListStore } "b" "T" none (.ok ⟨[], none⟩) 0 =
      ⟨.ok ⟨[], none⟩, 1, 0, []⟩ ∧
    listRecords { store := some c5MissStore } "b" "T" none (.ok ⟨[], none⟩) 0 =
      ⟨.ok ⟨[], none⟩, 11, 1, []⟩ ∧
    getRecord { store := some c5HitRecStore } "b" "T" "r1" none (.ok ⟨"r1", []⟩) 0 =
      ⟨.ok ⟨"r1", []⟩, 1, 0, []⟩ ∧
    getRecord { store := some c5MissStore } "b" "T" "r1" none (.ok ⟨"r1", []⟩) 0 =
      ⟨.ok ⟨"r1", []⟩, 11, 1, []⟩ :=
  ⟨(c5_read_through_hit_and_miss Nat).1 c5HitListStore _ "b" "T" none _ ⟨[], none⟩
      (.ok ⟨[], none⟩) 0 1 rfl (by decide) listKeyEvalNone rfl,
    (c5_read_through_hit_and_miss Nat).2.1 c5MissStore _ "b" "T" none _ ⟨[], none⟩
      0 1 11 rfl (by decide) listKeyEvalNone rfl rfl,
    (c5_read_through_hit_and_miss Nat).2.2.1 c5HitRecStore _ "b" "T" "r1" none _
      ⟨"r1", []⟩ (.ok ⟨"r1", []⟩) 0 1 rfl (by decide) recordKeyEvalNone rfl,
    (c5_read_through_hit_and_miss Nat).2.2.2 c5MissStore _ "b" "T" "r1" none _
      ⟨"r1", []⟩ 0 1 11 rfl (by decide) recordKeyEvalNone rfl rfl⟩

/-- C8: shared cache-error policy.  For a store error thrown during
`get`, `set` or `deleteByPrefix`, the `onError` observer (when
supplied) is invoked with the error and a context naming the failed
operation and the key or prefix; the error then propagates to the
caller exactly when `failOnCacheError` is set, and is otherwise fully
swallowed: a failed `get` proceeds to the transport as a miss, a failed
`set` still returns the freshly fetched result, and failed prefix
invalidation still returns the successful mutation result. -/
theorem c8_cache_error_policy (σ : Type) :
    (∀ (st : CacheStore σ) (opts : AirtableRecordsCacheOptions σ)
        (b T : String) (params : Option JValue) (key e : String)
        (req : Except AirtableError ListRecordsResult) (s s1 : σ),
      opts.store = some st → opts.methodsListRecords ≠ some false →
      opts.onErrorPresent = true → opts.failOnCacheError = true →
      listKey b T params = .ok key → st.get s key = (.error e, s1) →
      listRecords opts b T params req s =
        ⟨.error (.cache e), s1, 0, [(e, ⟨"get", some key, none⟩)]⟩) ∧
    (∀ (st : CacheStore σ) (opts : AirtableRecordsCacheOptions σ)
        (b T : String) (params : Option JValue) (key e : String)
        (v : ListRecordsResult) (s s1 s2 : σ),
      opts.store = some st → opts.methodsListRecords ≠ some false →
      opts.onErrorPresent = true → opts.failOnCacheError = false →
      listKey b T params = .ok key → st.get s key = (.error e, s1) →
      st.set s1 key (.listR v) opts.defaultTtlMs = (.ok (), s2) →
      listRecords opts b T params (.ok v) s =
        ⟨.ok v, s2, 1, [(e, ⟨"get", some key, none⟩)]⟩) ∧
    (∀ (st : CacheStore σ) (opts : AirtableRecordsCacheOptions σ)
        (b T : String) (params : Option JValue) (key e : String)
        (v : ListRecordsResult) (s s1 s2 : σ),
      opts.store = some st → opts.methodsListRecords ≠ some false →
      opts.onErrorPresent = true → opts.failOnCacheError = true →
      listKey b T params = .ok key → st.get s key = (.ok none, s1) →
      st.set s1 key (.listR v) opts.defaultTtlMs = (.error e, s2) →
      listRecords opts b T params (.ok v) s =
        ⟨.error (.cache e), s2, 1, [(e, ⟨"set", some key, none⟩)]⟩) ∧
    (∀ (st : CacheStore σ) (opts : AirtableRecordsCacheOptions σ)
        (b T : String) (params : Option JValue) (key e : String)
        (v : ListRecordsResult) (s s1 s2 : σ),
      opts.store = some st → opts.methodsListRecords ≠ some false →
      opts.onErrorPresent = true → opts.failOnCacheError = false →
      listKey b T params = .ok key → st.get s key = (.ok none, s1) →
      st.set s1 key (.listR v) opts.defaultTtlMs = (.error e, s2) →
      listRecords opts b T params (.ok v) s =
        ⟨.ok v, s2, 1, [(e, ⟨"set", some key, none⟩)]⟩) ∧
    (∀ (st : CacheStore σ) (opts : AirtableRecordsCacheOptions σ)
        (b T rid : String) (upd : AirRecord)
        (f : σ → String → Except String Unit × σ) (e1 e2 : String) (s s1 s2 : σ),
      opts.store = some st → st.deleteByPrefixOp = some f →
      opts.onErrorPresent = true → opts.failOnCacheError = true →
      f s (tablePrefixKey b T) = (.error e1, s1) →
      f s1 (recordPrefixKey b T rid) = (.error e2, s2) →
      updateRecord opts b T rid (.ok upd) s =
        ⟨.error (.cache e1), s2, 1,
          [(e1, ⟨"delete", none, some (tablePrefixKey b T)⟩),
            (e2, ⟨"delete", none, some (recordPrefixKey b T rid)⟩)]⟩) ∧
    (∀ (st : CacheStore σ) (opts : AirtableRecordsCacheOptions σ)
        (b T rid : String) (upd : AirRecord)
        (f : σ → String → Except String Unit × σ) (e1 e2 : String) (s s1 s2 : σ),
      opts.store = some st → st.deleteByPrefixOp = some f →
      opts.onErrorPresent = true → opts.failOnCacheError = false →
      f s (tablePrefixKey b T) = (.error e1, s1) →
      f s1 (recordPrefixKey b T rid) = (.error e2, s2) →
      updateRecord opts b T rid (.ok upd) s =
        ⟨.ok upd, s2, 1,
          [(e1, ⟨"delete", none, some (tablePrefixKey b T)⟩),
            (e2, ⟨"delete", none, some (recordPrefixKey b T rid)⟩)]⟩) := by
  refine ⟨?_, ?_, ?_, ?_, ?_, ?_⟩
  · intro st opts b T params key e req s s1 hst hm hobs hfail hkey hget
    have hms : opts.methodsListRecords.getD true = true := by
      cases hval : opts.methodsListRecords with
      | none => rfl
      | some bl => cases bl with
        | false => exact absurd hval hm
        | true => rfl
    simp [listRecords, hst, hms, hkey, cacheGet, hget, handleCacheError, hobs, hfail]
  · intro st opts b T params key e v s s1 s2 hst hm hobs hfail hkey hget hset
    have hms : opts.methodsListRecords.getD true = true := by
      cases hval : opts.methodsListRecords with
      | none => rfl
      | some bl => cases bl with
        | false => exact absurd hval hm
        | true => rfl
    simp [listRecords, hst, hms, hkey, cacheGet, hget, handleCacheError, hobs, hfail,
      cacheSet, hset]
  · intro st opts b T params key e v s s1 s2 hst hm hobs hfail hkey hget hset
    have hms : opts.methodsListRecords.getD true = true := by
      cases hval : opts.methodsListRecords with
      | none => rfl
      | some bl => cases bl with
        | false => exact absurd hval hm
        | true => rfl
    simp [listRecords, hst, hms, hkey, cacheGet, hget, handleCacheError, hobs, hfail,
      cacheSet, hset]
  · intro st opts b T params key e v s s1 s2 hst hm hobs hfail hkey hget hset
    have hms : opts.methodsListRecords.getD true = true := by
      cases hval : opts.methodsListRecords with
      | none => rfl
      | some bl => cases bl with
        | false => exact absurd hval hm
        | true => rfl
    simp [listRecords, hst, hms, hkey, cacheGet, hget, handleCacheError, hobs, hfail,
      cacheSet, hset]
  · intro st opts b T rid upd f e1 e2 s s1 s2 hst hdel hobs hfail h1 h2
    simp [updateRecord, cacheDeleteByPrefixRun, hst, hdel, h1, h2,
      handleCacheError, hobs, hfail]
  · intro st opts b T rid upd f e1 e2 s s1 s2 hst hdel hobs hfail h1 h2
    simp [updateRecord, cacheDeleteByPrefixRun, hst, hdel, h1, h2,
      handleCacheError, hobs, hfail]

/-- Store used by the C8 witness: `get` throws, `set` succeeds. -/
def c8GetErrStore : CacheStore Nat :=
  ⟨fun s _ => (.error "boom", s + 1), fun s _ _ _ => (.ok (), s + 10), none⟩

/-- Store used by the C8 witness: `get` misses, `set` throws. -/
def c8SetErrStore : CacheStore Nat :=
  ⟨fun s _ => (.ok none, s + 1), fun s _ _ _ => (.error "boom", s + 2), none⟩

/-- Store used by the C8 witness: prefix deletion throws. -/
def c8DelErrStore : CacheStore Nat :=
  ⟨fun s _ => (.ok none, s), fun s _ _ _ => (.ok (), s),
    some (fun s _ => (.error "boom", s + 3))⟩

/-- Witness for C8: each of the six policy branches exercised against
concrete throwing stores. -/
theorem c8_witness :
    listRecords
        { store := some c8GetErrStore, onErrorPresent := true, failOnCacheError := true }
        "b" "T" none (.ok ⟨[], none⟩) 0 =
      ⟨.error (.cache "boom"), 1, 0,
        [("boom", ⟨"get", some "records:list:b:T:\x7b\x7d", none⟩)]⟩ ∧
    listRecords
        { store := some c8GetErrStore, onErrorPresent := true, failOnCacheError := false }
        "b" "T" none (.ok ⟨[], none⟩) 0 =
      ⟨.ok ⟨[], none⟩, 11, 1,
        [("boom", ⟨"get", some "records:list:b:T:\x7b\x7d", none⟩)]⟩ ∧
    listRecords
        { store := some c8SetErrStore, onErrorPresent := true, failOnCacheError := true }
        "b" "T" none (.ok ⟨[], none⟩) 0 =
      ⟨.error (.cache "boom"), 3, 1,
        [("boom", ⟨"set", some "records:list:b:T:\x7b\x7d", none⟩)]⟩ ∧
    listRecords
        { store := some c8SetErrStore, onErrorPresent := true, failOnCacheError := false }
        "b" "T" none (.ok ⟨[], none⟩) 0 =
      ⟨.ok ⟨[], none⟩, 3, 1,
        [("boom", ⟨"set", some "records:list:b:T:\x7b\x7d", none⟩)]⟩ ∧
    updateRecord
        { store := some c8DelErrStore, onErrorPresent := true, failOnCacheError := true }
        "b" "T" "r1" (.ok ⟨"r1", []⟩) 0 =
      ⟨.error (.cache "boom"), 6, 1,
        [("boom", ⟨"delete", none, some (tablePrefixKey "b" "T")⟩),
          ("boom", ⟨"delete", none, some (recordPrefixKey "b" "T" "r1")⟩)]⟩ ∧
    updateRecord
        { store := some c8DelErrStore, onErrorPresent := true, failOnCacheError := false }
        "b" "T" "r1" (.ok ⟨"r1", []⟩) 0 =
      ⟨.ok ⟨"r1", []⟩, 6, 1,
        [("boom", ⟨"delete", none, some (tablePrefixKey "b" "T")⟩),
          ("boom", ⟨"delete", none, some (recordPrefixKey "b" "T" "r1")⟩)]⟩ :=
  ⟨(c8_cache_error_policy Nat).1 c8GetErrStore _ "b" "T" none _ "boom" (.ok ⟨[], none⟩)
      0 1 rfl (by decide) rfl rfl listKeyEvalNone rfl,
    (c8_cache_error_policy Nat).2.1 c8GetErrStore _ "b" "T" none _ "boom" ⟨[], none⟩
      0 1 11 rfl (by decide) rfl rfl listKeyEvalNone rfl rfl,
    (c8_cache_error_policy Nat).2.2.1 c8SetErrStore _ "b" "T" none _ "boom" ⟨[], none⟩
      0 1 3 rfl (by decide) rfl rfl listKeyEvalNone rfl rfl,
    (c8_cache_error_policy Nat).2.2.2.1 c8SetErrStore _ "b" "T" none _ "boom" ⟨[], none⟩
      0 1 3 rfl (by decide) rfl rfl listKeyEvalNone rfl rfl,
    (c8_cache_error_policy Nat).2.2.2.2.1 c8DelErrStore _ "b" "T" "r1" ⟨"r1", []⟩ _
      "boom" "boom" 0 3 6 rfl rfl rfl rfl rfl rfl,
    (c8_cache_error_policy Nat).2.2.2.2.2 c8DelErrStore _ "b" "T" "r1" ⟨"r1", []⟩ _
      "boom" "boom" 0 3 6 rfl rfl rfl rfl rfl rfl⟩

/-- The colon character that separates cache-key segments. -/
def colonChar : Char := ':'

/-- A key matching the deletion prefix is absent from the store left by
`InMemoryCacheStore.deleteByPrefixOp`. -/
theorem lookup_filter_none (key pre : String) (l : List (String × CacheEntry))
    (h : strStartsWith key pre = true) :
    (l.filter (fun p => !strStartsWith p.1 pre)).lookup key = none := by
  induction l with
  | nil => rfl
  | cons p rest ih =>
    obtain ⟨k, e⟩ := p
    rw [List.filter_cons]
    by_cases hk : strStartsWith k pre = true
    · rw [if_neg (by simp [hk])]
      exact ih
    · have hkf : strStartsWith k pre = false := by simpa using hk
      have hkne : (key == k) = false := by
        by_cases hkey : key = k
        · rw [← hkey, h] at hkf
          exact absurd hkf (by simp)
        · simp [hkey]
      rw [if_pos (by simp [hkf])]
      simp [List.lookup, hkne, ih]

/-- A key NOT matching the deletion prefix keeps its binding across
`InMemoryCacheStore.deleteByPrefixOp`. -/
theorem lookup_filter_untouched (key pre : String) (l : List (String × CacheEntry))
    (h : strStartsWith key pre = false) :
    (l.filter (fun p => !strStartsWith p.1 pre)).lookup key = l.lookup key := by
  induction l with
  | nil => rfl
  | cons p rest ih =>
    obtain ⟨k, e⟩ := p
    rw [List.filter_cons]
    by_cases hk : strStartsWith k pre = true
    · have hkne : (key == k) = false := by
        by_cases hkey : key = k
        · rw [← hkey, h] at hk
          exact absurd hk (by simp)
        · simp [hkey]
      rw [if_neg (by simp [hk])]
      simp [List.lookup, hkne, ih]
    · have hkf : strStartsWith k pre = false := by simpa using hk
      rw [if_pos (by simp [hkf])]
      simp [List.lookup, ih]

/-- Appending to a string preserves it as a prefix. -/
theorem strStartsWith_append (pre x : String) : strStartsWith (pre ++ x) pre = true := by
  rw [strStartsWith, String.data_append, List.isPrefixOf_iff_prefix]
  exact List.prefix_append _ _

/-- Two colon-free segments closed by a colon and agreeing as prefixes
are equal: the colon acts as an unambiguous separator inside cache
keys. -/
theorem colon_prefix_eq : ∀ (A B tail : List Char), colonChar ∉ A → colonChar ∉ B →
    (A ++ [colonChar]) <+: (B ++ colonChar :: tail) → A = B
  | [], [], _, _, _, _ => rfl
  | [], b :: B1, tail, _, hB, h => by
      rw [List.nil_append, List.cons_append, List.cons_prefix_cons] at h
      exfalso
      apply hB
      rw [h.1]
      exact List.mem_cons_self b B1
  | a :: A1, [], tail, hA, _, h => by
      rw [List.cons_append, List.nil_append, List.cons_prefix_cons] at h
      exfalso
      apply hA
      rw [← h.1]
      exact List.mem_cons_self a A1
  | a :: A1, b :: B1, tail, hA, hB, h => by
      rw [List.cons_append, List.cons_append, List.cons_prefix_cons] at h
      have ih := colon_prefix_eq A1 B1 tail (fun hc => hA (List.mem_cons_of_mem a hc))
        (fun hc => hB (List.mem_cons_of_mem b hc)) h.2
      rw [h.1, ih]

/-- A record-scoped get key never matches a table-scoped list prefix:
the two key families diverge at their ninth character. -/
theorem getKey_not_table_prefixed (b T b2 T2 rc ss : String) :
    strStartsWith (recordPrefixKey b T rc ++ ss) (tablePrefixKey b2 T2) = false := by
  rw [strStartsWith, recordPrefixKey, tablePrefixKey]
  simp only [String.data_append, List.append_assoc]
  simp +decide [List.isPrefixOf, List.cons_append]

/-- For colon-free record identifiers, distinct records have
non-overlapping record-scoped key families: no key of one record starts
with the other record's prefix. -/
theorem recordPrefixKey_not_prefix_of_ne (b T rec rc ss : String)
    (hne : rc ≠ rec) (h1 : colonChar ∉ rec.data) (h2 : colonChar ∉ rc.data) :
    strStartsWith (recordPrefixKey b T rc ++ ss) (recordPrefixKey b T rec) = false := by
  cases hb : strStartsWith (recordPrefixKey b T rc ++ ss) (recordPrefixKey b T rec) with
  | false => rfl
  | true =>
    exfalso
    rw [strStartsWith] at hb
    rw [List.isPrefixOf_iff_prefix] at hb
    rw [recordPrefixKey, recordPrefixKey] at hb
    simp only [String.data_append, List.append_assoc] at hb
    simp only [List.prefix_append_right_inj] at hb
    rw [List.singleton_append] at hb
    have heq := colon_prefix_eq rec.data rc.data ss.data h1 h2 hb
    exact hne (String.ext heq.symm)

/-- The `CacheStore` interface view of `InMemoryCacheStore` at a frozen
clock reading: the in-process store's methods never throw, and it
implements prefix deletion. -/
def memStore (now : Nat) : CacheStore InMemoryCacheStore where
  get := fun s key => (.ok (s.get now key).1, (s.get now key).2)
  set := fun s key v ttl => (.ok (), s.set now key v ttl)
  deleteByPrefixOp := some (fun s pre => (.ok (), s.deleteByPrefixOp pre))

/-- Every successfully built record-scoped key extends the record's
prefix. -/
theorem recordKey_ok_shape (b T r : String) (params : Option JValue) (key : String)
    (hk : recordKey b T r params = .ok key) :
    ∃ ss, key = recordPrefixKey b T r ++ ss := by
  cases hss : stableStringify (params.getD (.jobj 0 [])) with
  | error e =>
      rw [recordKey, hss] at hk
      simp [Except.map] at hk
  | ok ss =>
      rw [recordKey, hss] at hk
      simp only [Except.map, Except.ok.injEq] at hk
      exact ⟨ss, hk.symm⟩

/-- The record-scoped key of a parameterless get: prefix plus the
serialized empty object. -/
theorem recordKey_none_eval (b T r : String) :
    recordKey b T r none = .ok (recordPrefixKey b T r ++ "\x7b\x7d") := by
  simp only [recordKey, Option.getD, stableStringify_emptyObj, Except.map]

/-- C7 — corrected.  Against the in-process store (which implements
prefix deletion and never throws), a single-record update resolves with
the updated record after one transport call and removes every cached
get-by-id binding of that record, so the immediately following
`getRecord` for it (any display parameters) misses the cache and
performs one transport call.  The frame part of the claim holds for
colon-free record identifiers: every other such record's cached
get-by-id binding is untouched.  For identifiers containing a colon the
frame part fails — the record identifier is inserted verbatim into the
key prefix, so record `r1` also captures record `r1:x`'s keys (see the
counterexample). -/
theorem c7_update_invalidates_record (now : Nat)
    (opts : AirtableRecordsCacheOptions InMemoryCacheStore)
    (hst : opts.store = some (memStore now))
    (hm : opts.methodsGetRecord.getD true = true)
    (b T rec : String) (upd : AirRecord) (s : InMemoryCacheStore) :
    (updateRecord opts b T rec (.ok upd) s).result = .ok upd ∧
    (updateRecord opts b T rec (.ok upd) s).transportCalls = 1 ∧
    (∀ params key, recordKey b T rec params = .ok key →
      (updateRecord opts b T rec (.ok upd) s).state.map.lookup key = none) ∧
    (∀ params key (r2 : AirRecord), recordKey b T rec params = .ok key →
      (getRecord opts b T rec params (.ok r2)
        (updateRecord opts b T rec (.ok upd) s).state).transportCalls = 1) ∧
    (∀ rc params key, rc ≠ rec → colonChar ∉ rec.data → colonChar ∉ rc.data →
      recordKey b T rc params = .ok key →
      (updateRecord opts b T rec (.ok upd) s).state.map.lookup key =
        s.map.lookup key) := by
  have hrun : updateRecord opts b T rec (.ok upd) s =
      ⟨.ok upd,
        (s.deleteByPrefixOp (tablePrefixKey b T)).deleteByPrefixOp
          (recordPrefixKey b T rec),
        1, []⟩ := by
    simp [updateRecord, cacheDeleteByPrefixRun, hst, memStore]
  refine ⟨by rw [hrun], by rw [hrun], ?_, ?_, ?_⟩
  · intro params key hk
    obtain ⟨ss, rfl⟩ := recordKey_ok_shape b T rec params key hk
    rw [hrun]
    exact lookup_filter_none _ _ _ (strStartsWith_append _ _)
  · intro params key r2 hk
    have hnone : ((s.deleteByPrefixOp (tablePrefixKey b T)).deleteByPrefixOp
        (recordPrefixKey b T rec)).map.lookup key = none := by
      obtain ⟨ss, rfl⟩ := recordKey_ok_shape b T rec params key hk
      exact lookup_filter_none _ _ _ (strStartsWith_append _ _)
    have hsc : (opts.store.isSome && opts.methodsGetRecord.getD true) = true := by
      rw [hst, hm]
      rfl
    rw [hrun]
    simp only [getRecord, hsc, if_true, hk, cacheGet, cacheSet, hst, memStore,
      InMemoryCacheStore.get, hnone]
    split <;> rfl
  · intro rc params key hne h1 h2 hk
    obtain ⟨ss, rfl⟩ := recordKey_ok_shape b T rc params key hk
    rw [hrun]
    simp only [InMemoryCacheStore.deleteByPrefixOp]
    rw [lookup_filter_untouched _ _ _
      (recordPrefixKey_not_prefix_of_ne b T rec rc ss hne h1 h2)]
    exact lookup_filter_untouched _ _ _ (getKey_not_table_prefixed b T b T rc ss)

/-- Concrete cache options for the C7 runs: the in-process store at
clock 10, everything else at its defaults. -/
def c7Opts : AirtableRecordsCacheOptions InMemoryCacheStore :=
  { store := some (memStore 10) }

/-- Concrete store holding a cached get-by-id view of record `r2`. -/
def c7Store : InMemoryCacheStore :=
  { map := [(recordPrefixKey "b" "T" "r2" ++ "\x7b\x7d", ⟨.recR ⟨"r2", []⟩, none⟩)] }

/-- Witness for C7: updating record `r1` succeeds with one transport
call, removes its parameterless get-by-id key, makes the following
`getRecord` a transport-calling miss, and leaves record `r2`'s cached
binding untouched. -/
theorem c7_witness :
    (updateRecord c7Opts "b" "T" "r1" (.ok ⟨"r1", []⟩) c7Store).result = .ok ⟨"r1", []⟩ ∧
    (updateRecord c7Opts "b" "T" "r1" (.ok ⟨"r1", []⟩) c7Store).transportCalls = 1 ∧
    (updateRecord c7Opts "b" "T" "r1" (.ok ⟨"r1", []⟩) c7Store).state.map.lookup
      (recordPrefixKey "b" "T" "r1" ++ "\x7b\x7d") = none ∧
    (getRecord c7Opts "b" "T" "r1" none (.ok ⟨"r1", []⟩)
      (updateRecord c7Opts "b" "T" "r1" (.ok ⟨"r1", []⟩) c7Store).state).transportCalls
      = 1 ∧
    (updateRecord c7Opts "b" "T" "r1" (.ok ⟨"r1", []⟩) c7Store).state.map.lookup
      (recordPrefixKey "b" "T" "r2" ++ "\x7b\x7d") =
      c7Store.map.lookup (recordPrefixKey "b" "T" "r2" ++ "\x7b\x7d") := by
  have h := c7_update_invalidates_record 10 c7Opts rfl rfl "b" "T" "r1" ⟨"r1", []⟩ c7Store
  exact ⟨h.1, h.2.1,
    h.2.2.1 none _ (recordKey_none_eval "b" "T" "r1"),
    h.2.2.2.1 none _ ⟨"r1", []⟩ (recordKey_none_eval "b" "T" "r1"),
    h.2.2.2.2 "r2" none _ (by decide) (by decide) (by decide)
      (recordKey_none_eval "b" "T" "r2")⟩

/-- Concrete store holding a cached get-by-id view of record `r1:x`,
whose identifier contains a colon. -/
def c7CexStore : InMemoryCacheStore :=
  { map := [(recordPrefixKey "b" "T" "r1:x" ++ "\x7b\x7d", ⟨.recR ⟨"r1:x", []⟩, none⟩)] }

/-- Counterexample to C7 as stated: record `r1:x` is a different record
of the same table, yet updating record `r1` deletes its cached
get-by-id binding, because the record identifier is inserted into the
key prefix without escaping. -/
theorem c7_counterexample :
    c7CexStore.map.lookup (recordPrefixKey "b" "T" "r1:x" ++ "\x7b\x7d") =
      some ⟨.recR ⟨"r1:x", []⟩, none⟩ ∧
    (updateRecord c7Opts "b" "T" "r1" (.ok ⟨"r1", []⟩) c7CexStore).state.map.lookup
      (recordPrefixKey "b" "T" "r1:x" ++ "\x7b\x7d") = none := by
  exact ⟨rfl, rfl⟩
